import Mathlib

/-! HunterChip8Emulator: a shallow embedding of `src/main.cpp`.

The C++ emulator keeps its machine state in the class `Emulator`.  The
definitions below follow the member functions of that class one by one.

Conventions of the embedding:

* `unsigned int` is taken to be 32 bits wide, `uint16_t` 16 bits and `uint8_t`
  8 bits; every arithmetic result is reduced explicitly (`u32`, `u16`, `u8`).
* `std::vector<uint8_t> Memory` has the fixed size 4096; it is a function on
  indices, and every access is guarded by the bound: an index outside the
  vector is undefined behaviour in C++ and is reported as `Outcome.undefined`.
* `std::stack<uint16_t>` is a list whose head is the top of the stack.
* the text written to `std::cout` / `std::cerr` and the SDL presentation of
  the grid are not part of the machine state and are not modelled.
-/

namespace Chip8

/-! ## Machine integers -/

/-- Reduction to a C++ `unsigned int` (32 bits). -/
def u32 (n : Nat) : Nat := n % 4294967296

/-- Reduction to a `uint16_t`. -/
def u16 (n : Nat) : Nat := n % 65536

/-- Reduction to a `uint8_t`. -/
def u8 (n : Nat) : Nat := n % 256

/-- Subtraction `a - b` of two `unsigned int` values. -/
def sub32 (a b : Nat) : Nat := u32 (a + 4294967296 - u32 b)

/-- Conversion of an `unsigned int` to `int` (modulo 2^32, as every current
compiler does). -/
def toInt32 (n : Nat) : Int :=
  if u32 n < 2147483648 then (u32 n : Int) else (u32 n : Int) - 4294967296

/-- Conversion of an `int` to `unsigned int`. -/
def ofInt32 (z : Int) : Nat := (z % 4294967296).toNat

/-! ## Outcomes -/

/-- What a call of a member function can end in. -/
inductive Outcome (α : Type) where
  /-- The call returns normally. -/
  | next (a : α) : Outcome α
  /-- The process was ended by `exit(code)`. -/
  | exit (code : Nat) : Outcome α
  /-- The call ran into undefined behaviour of C++ (an index outside a
  vector, `top()` of an empty stack): the source defines no result. -/
  | undefined : Outcome α
  /-- The call is still spinning in the key-wait loop of `FX0A` when the
  supplied host input ends. -/
  | waiting : Outcome α

/-- Sequencing of calls: the continuation runs only after a normal return. -/
def Outcome.bind {α β : Type} (o : Outcome α) (f : α → Outcome β) : Outcome β :=
  match o with
  | .next a => f a
  | .exit c => .exit c
  | .undefined => .undefined
  | .waiting => .waiting

/-- A counted loop `for (i = 0; i < n; i++) body`. -/
def forLoop {σ : Type} (body : Nat → σ → σ) : Nat → σ → σ
  | 0, s => s
  | n + 1, s => body n (forLoop body n s)

/-- A counted loop `for (i = 0; i < n; i++) body` whose body can fail. -/
def forLoopO {σ : Type} (body : Nat → σ → Outcome σ) : Nat → σ → Outcome σ
  | 0, s => .next s
  | n + 1, s => (forLoopO body n s).bind (body n)

/-! ## `class Register` -/

/-- The class `Register`: an `unsigned int value` and the declared width. -/
structure Register where
  value : Nat
  bits : Nat

/-- The method `Register::checkCarry`: the register afterwards and the
returned carry. -/
def Register.checkCarry (r : Register) : Register × Nat :=
  let maxValue := (1 <<< r.bits) - 1
  if r.value > maxValue then
    ({ r with value := r.value &&& maxValue }, 1)
  else
    (r, 0)

/-- The method `Register::checkBorrow` (no opcode calls it). -/
def Register.checkBorrow (r : Register) : Register × Nat :=
  if r.value > (1 <<< r.bits) - 1 then
    ({ r with value := sub32 (1 <<< r.bits) r.value }, 0)
  else
    (r, 1)

/-! ## `class DelayTimer`, `class SoundTimer` -/

/-- The class `DelayTimer`: an `int timer`. -/
structure DelayTimer where
  timer : Int

/-- The method `DelayTimer::setTimer`. -/
def DelayTimer.setTimer (_t : DelayTimer) (value : Int) : DelayTimer :=
  { timer := value }

/-- The method `DelayTimer::readTimer`. -/
def DelayTimer.readTimer (t : DelayTimer) : Int := t.timer

/-- An SDL event as `keyHandler` distinguishes them. -/
inductive Event where
  | quit : Event
  | keyDown (sym : Nat) : Event
  | keyUp (sym : Nat) : Event
  | other : Event

/-- What the host supplies while one opcode runs: the value returned by
`rand()` and, for each call of `keyHandler`, the events `SDL_PollEvent`
hands out during that call. -/
structure Host where
  rand : Nat
  polls : List (List Event)

/-- The table `keyDict`, from SDL key codes (the character codes of the keys
`1234 qwer asdf zxcv`) to CHIP-8 key numbers. -/
def keyDict (sym : Nat) : Option Nat :=
  match sym with
  | 49 => some 0x1
  | 50 => some 0x2
  | 51 => some 0x3
  | 52 => some 0xC
  | 113 => some 0x4
  | 119 => some 0x5
  | 101 => some 0x6
  | 114 => some 0xD
  | 97 => some 0x7
  | 115 => some 0x8
  | 100 => some 0x9
  | 102 => some 0xE
  | 122 => some 0xA
  | 120 => some 0x0
  | 99 => some 0xB
  | 118 => some 0xF
  | _ => none

/-! ## `class Emulator` -/

/-- The state held by the class `Emulator`. -/
structure Emulator where
  Memory : Nat → Nat
  Registers : Nat → Register
  IRegister : Register
  ProgramCounter : Nat
  stack : List Nat
  delayTimer : DelayTimer
  soundTimer : DelayTimer
  keys : Nat → Bool
  grid : Nat → Nat → Nat

/-- The font table of the constructor. -/
def fonts : List Nat :=
  [0xF0, 0x90, 0x90, 0x90, 0xF0,
   0x20, 0x60, 0x20, 0x20, 0x70,
   0xF0, 0x10, 0xF0, 0x80, 0xF0,
   0xF0, 0x10, 0xF0, 0x10, 0xF0,
   0x90, 0x90, 0xF0, 0x10, 0x10,
   0xF0, 0x80, 0xF0, 0x10, 0xF0,
   0xF0, 0x80, 0xF0, 0x90, 0xF0,
   0xF0, 0x10, 0x20, 0x40, 0x40,
   0xF0, 0x90, 0xF0, 0x90, 0xF0,
   0xF0, 0x90, 0xF0, 0x10, 0xF0,
   0xF0, 0x90, 0xF0, 0x90, 0x90,
   0xE0, 0x90, 0xE0, 0x90, 0xE0,
   0xF0, 0x80, 0x80, 0x80, 0xF0,
   0xE0, 0x90, 0x90, 0x90, 0xE0,
   0xF0, 0x80, 0xF0, 0x80, 0xF0,
   0xF0, 0x80, 0xF0, 0x80, 0x80]

/-- The constructor `Emulator()`: the reset state. -/
def Emulator.init : Emulator where
  Memory := fun i => fonts.getD i 0
  Registers := fun _ => { value := 0, bits := 8 }
  IRegister := { value := 0, bits := 16 }
  ProgramCounter := 0x200
  stack := []
  delayTimer := { timer := 0 }
  soundTimer := { timer := 0 }
  keys := fun _ => false
  grid := fun _ _ => 0

/-- The value of general register `i`. -/
def Emulator.V (e : Emulator) (i : Nat) : Nat := (e.Registers i).value

/-- The assignment `Registers[i].value = v`. -/
def Emulator.setV (e : Emulator) (i v : Nat) : Emulator :=
  { e with Registers := fun k => if k = i then { e.Registers k with value := v } else e.Registers k }

/-- The assignment `IRegister.value = v`. -/
def Emulator.setI (e : Emulator) (v : Nat) : Emulator :=
  { e with IRegister := { e.IRegister with value := v } }

/-- The statement `ProgramCounter += 2`. -/
def Emulator.skip (e : Emulator) : Emulator :=
  { e with ProgramCounter := u16 (e.ProgramCounter + 2) }

/-- A read `Memory[idx]`. -/
def Emulator.readMem (e : Emulator) (idx : Nat) : Outcome Nat :=
  if idx < 4096 then .next (e.Memory idx) else .undefined

/-- An assignment `Memory[idx] = v` of a byte. -/
def Emulator.writeMem (e : Emulator) (idx v : Nat) : Outcome Emulator :=
  if idx < 4096 then
    .next { e with Memory := fun k => if k = idx then v else e.Memory k }
  else
    .undefined

/-- A read `keys[idx]`. -/
def Emulator.readKey (e : Emulator) (idx : Nat) : Outcome Bool :=
  if idx < 16 then .next (e.keys idx) else .undefined

/-- The method `Emulator::clear`. -/
def Emulator.clear (e : Emulator) : Emulator :=
  { e with grid := fun _ _ => 0 }

/-- One pass of the inner loop of `Emulator::draw`: column `j` of sprite row
`i`, on the grid and the collision flag so far.  A cell is a `uint8_t`, and
`screenPixel ^= 1` cannot leave that range. -/
def drawPixel (Vx Vy i spriteByte j : Nat) (acc : (Nat → Nat → Nat) × Bool) :
    (Nat → Nat → Nat) × Bool :=
  let spritePixel := (spriteByte >>> (7 - j)) &&& 0x1
  let row := (Vy + i) % 32
  let col := (Vx + j) % 64
  let screenPixel := acc.1 row col
  if spritePixel = 1 then
    (fun r c => if r = row ∧ c = col then screenPixel ^^^ 1 else acc.1 r c,
     if screenPixel = 1 then true else acc.2)
  else
    acc

/-- One pass of the outer loop of `Emulator::draw`: sprite row `i`. -/
def drawRow (Vx Vy : Nat) (sprite : List Nat) (i : Nat) (acc : (Nat → Nat → Nat) × Bool) :
    (Nat → Nat → Nat) × Bool :=
  forLoop (drawPixel Vx Vy i (sprite.getD i 0)) 8 acc

/-- The method `Emulator::draw` on the grid: the grid afterwards and the
returned collision flag.  `Vx` and `Vy` are the `uint8_t` arguments. -/
def draw (grid : Nat → Nat → Nat) (Vx Vy : Nat) (sprite : List Nat) :
    (Nat → Nat → Nat) × Bool :=
  forLoop (drawRow Vx Vy sprite) sprite.length (grid, false)

/-- The method `Emulator::keyHandler` on the key table, for the events of one
call. -/
def keyHandler (keys : Nat → Bool) : List Event → Outcome (Nat → Bool)
  | [] => .next keys
  | .quit :: _ => .exit 0
  | .keyDown sym :: rest =>
    match keyDict sym with
    | some k => keyHandler (fun i => if i = k then true else keys i) rest
    | none => keyHandler keys rest
  | .keyUp sym :: rest =>
    match keyDict sym with
    | some k => keyHandler (fun i => if i = k then false else keys i) rest
    | none => keyHandler keys rest
  | .other :: rest => keyHandler keys rest

/-- The key-wait loop of opcode `FX0A`: each pass calls `keyHandler` and then
scans `keys[0..15]` for the first pressed key. -/
def waitKey (keys : Nat → Bool) : List (List Event) → Outcome ((Nat → Bool) × Nat)
  | [] => .waiting
  | events :: rest =>
    match keyHandler keys events with
    | .next keys1 =>
      match (List.range 16).find? (fun i => keys1 i) with
      | some i => .next (keys1, i)
      | none => waitKey keys1 rest
    | .exit c => .exit c
    | .undefined => .undefined
    | .waiting => .waiting

/-! ## `Emulator::execOpcode` -/

/-- The local `firstNibble` of `execOpcode`. -/
def firstNibble (opcode : Nat) : Nat := (opcode &&& 0xF000) >>> 12

/-- The local `secondNibble` of `execOpcode`, also called `X`. -/
def secondNibble (opcode : Nat) : Nat := (opcode &&& 0x0F00) >>> 8

/-- The local `thirdNibble` of `execOpcode`, also called `Y`. -/
def thirdNibble (opcode : Nat) : Nat := (opcode &&& 0x00F0) >>> 4

/-- The local `fourthNibble` of `execOpcode`, also called `N`. -/
def fourthNibble (opcode : Nat) : Nat := opcode &&& 0x000F

/-- The local `NNN` of `execOpcode`. -/
def lowNNN (opcode : Nat) : Nat := opcode &&& 0x0FFF

/-- The local `NN` of `execOpcode`. -/
def lowNN (opcode : Nat) : Nat := opcode &&& 0x00FF

/-- The `case 0x8` of `execOpcode`: the inner switch on `fourthNibble`. -/
def execArith (e : Emulator) (opcode : Nat) : Emulator :=
  let X := secondNibble opcode
  let Y := thirdNibble opcode
  match fourthNibble opcode with
  | 0x0 => e.setV X (e.V Y)
  | 0x1 => e.setV X (e.V X ||| e.V Y)
  | 0x2 => e.setV X (e.V X &&& e.V Y)
  | 0x3 => e.setV X (e.V X ^^^ e.V Y)
  | 0x4 =>
    let sum := u16 (u32 (e.V X + e.V Y))
    let e1 := e.setV 0xF (if sum > 255 then 1 else 0)
    e1.setV X (sum &&& 0xFF)
  | 0x5 =>
    let e1 := e.setV 0xF (if e.V X > e.V Y then 1 else 0)
    e1.setV X (sub32 (e1.V X) (e1.V Y))
  | 0x6 =>
    let e1 := e.setV 0xF (e.V X &&& 0x1)
    e1.setV X (e1.V X >>> 1)
  | 0x7 =>
    let e1 := e.setV 0xF (if e.V Y > e.V X then 1 else 0)
    e1.setV X (sub32 (e1.V Y) (e1.V X))
  | 0xE =>
    let e1 := e.setV 0xF ((e.V X &&& 0x80) >>> 7)
    e1.setV X (u32 (e1.V X <<< 1))
  | _ => e

/-- The `case 0xD` of `execOpcode`: the sprite is copied out of memory, drawn,
and the collision flag stored in `VF`. -/
def execDraw (e : Emulator) (opcode : Nat) : Outcome Emulator :=
  let X := secondNibble opcode
  let Y := thirdNibble opcode
  let N := fourthNibble opcode
  (forLoopO (fun i (sprite : List Nat) =>
      (e.readMem (u32 (e.IRegister.value + i))).bind (fun b => .next (sprite.set i b)))
    N (List.replicate N 0)).bind (fun sprite =>
  let res := draw e.grid (u8 (e.V X)) (u8 (e.V Y)) sprite
  let e1 : Emulator := { e with grid := res.1 }
  .next (e1.setV 0xF (if res.2 then 1 else 0)))

/-- The `case 0xF` of `execOpcode`: the inner switch on `NN`. -/
def execMisc (host : Host) (e : Emulator) (opcode : Nat) : Outcome Emulator :=
  let X := secondNibble opcode
  match lowNN opcode with
  | 0x07 => .next (e.setV X (ofInt32 e.delayTimer.readTimer))
  | 0x0A =>
    (waitKey e.keys host.polls).bind (fun kp =>
      let e1 : Emulator := { e with keys := kp.1 }
      .next (e1.setV X kp.2))
  | 0x15 => .next { e with delayTimer := e.delayTimer.setTimer (toInt32 (e.V X)) }
  | 0x18 => .next { e with soundTimer := e.soundTimer.setTimer (toInt32 (e.V X)) }
  | 0x1E => .next (e.setI (u32 (e.IRegister.value + e.V X)))
  | 0x29 => .next (e.setI (u32 (e.V X * 5)))
  | 0x33 =>
    let value := u8 (e.V X)
    (e.writeMem (u32 (e.IRegister.value + 2)) (value % 10)).bind (fun e1 =>
    let value1 := value / 10
    (e1.writeMem (u32 (e1.IRegister.value + 1)) (value1 % 10)).bind (fun e2 =>
    let value2 := value1 / 10
    e2.writeMem e2.IRegister.value (value2 % 10)))
  | 0x55 =>
    forLoopO (fun i (e1 : Emulator) =>
      e1.writeMem (u32 (e1.IRegister.value + i)) (u8 (e1.V i))) (X + 1) e
  | 0x65 =>
    forLoopO (fun i (e1 : Emulator) =>
      (e1.readMem (u32 (e1.IRegister.value + i))).bind (fun b => .next (e1.setV i b))) (X + 1) e
  | _ => .next e

/-- The method `Emulator::execOpcode`: the outer switch on `firstNibble`,
followed by the closing `ProgramCounter += 2`. -/
def execOpcode (host : Host) (e : Emulator) (opcode : Nat) : Outcome Emulator :=
  let NNN := lowNNN opcode
  let NN := lowNN opcode
  let X := secondNibble opcode
  let Y := thirdNibble opcode
  let body : Outcome Emulator :=
    match firstNibble opcode with
    | 0x0 =>
      if opcode = 0x00E0 then
        .next e.clear
      else if opcode = 0x00EE then
        match e.stack with
        | [] => .undefined
        | top :: rest => .next { e with ProgramCounter := top, stack := rest }
      else
        .next e
    | 0x1 => .next { e with ProgramCounter := u16 (NNN + 65536 - 2) }
    | 0x2 =>
      .next { e with stack := e.ProgramCounter :: e.stack, ProgramCounter := u16 (NNN + 65536 - 2) }
    | 0x3 => .next (if e.V X = NN then e.skip else e)
    | 0x4 => .next (if e.V X ≠ NN then e.skip else e)
    | 0x5 => .next (if e.V X = e.V Y then e.skip else e)
    | 0x6 => .next (e.setV X NN)
    | 0x7 =>
      let e1 := e.setV X (u32 (e.V X + NN))
      .next { e1 with Registers := fun k =>
        if k = X then (e1.Registers k).checkCarry.1 else e1.Registers k }
    | 0x8 => .next (execArith e opcode)
    | 0x9 => .next (if e.V X ≠ e.V Y then e.skip else e)
    | 0xA => .next (e.setI NNN)
    | 0xB => .next { e with ProgramCounter := u16 (u32 (e.V 0 + NNN + 4294967296 - 2)) }
    | 0xC => .next (e.setV X ((host.rand % 256) &&& NN))
    | 0xD => execDraw e opcode
    | 0xE =>
      if NN = 0x9E then
        (e.readKey (e.V X)).bind (fun pressed => .next (if pressed then e.skip else e))
      else if NN = 0xA1 then
        (e.readKey (e.V X)).bind (fun pressed => .next (if !pressed then e.skip else e))
      else
        .next e
    | 0xF => execMisc host e opcode
    | _ => .next e
  body.bind (fun e1 => .next e1.skip)

/-- The method `Emulator::execution`: fetch the big-endian opcode at
`ProgramCounter` and execute it. -/
def execution (host : Host) (e : Emulator) : Outcome Emulator :=
  (e.readMem e.ProgramCounter).bind (fun hi =>
  (e.readMem (e.ProgramCounter + 1)).bind (fun lo =>
  execOpcode host e (u16 ((hi <<< 8) ||| lo))))

/-- The method `Emulator::convertProg`: the bytes of the ROM file, or
`exit(1)` when the file cannot be opened (`none`). -/
def convertProg (file : Option (List Nat)) : Outcome (List Nat) :=
  match file with
  | none => .exit 1
  | some rom => .next rom

/-- The method `Emulator::readProg`: the ROM bytes are copied to `0x200`
onwards. -/
def readProg (e : Emulator) (file : Option (List Nat)) : Outcome Emulator :=
  (convertProg file).bind (fun rom =>
    forLoopO (fun i (e1 : Emulator) => e1.writeMem (0x200 + i) (rom.getD i 0)) rom.length e)

/-- Consecutive calls of `execOpcode`, one per opcode of the list, each with
its own host input. -/
def execOpcodes (e : Emulator) : List (Host × Nat) → Outcome Emulator
  | [] => .next e
  | (host, opcode) :: rest => (execOpcode host e opcode).bind (fun e1 => execOpcodes e1 rest)

/-- Consecutive fetch-execute cycles, one per element of `hosts`. -/
def cycles (e : Emulator) : List Host → Outcome Emulator
  | [] => .next e
  | host :: rest => (execution host e).bind (fun e1 => cycles e1 rest)

/-! ## Decoding lemmas -/

theorem and_shiftLeft_shiftRight (a m k : Nat) : (a &&& (m <<< k)) >>> k = (a >>> k) &&& m := by
  apply Nat.eq_of_testBit_eq
  intro i
  simp [Nat.testBit_shiftRight, Nat.testBit_shiftLeft, Nat.testBit_and]
theorem firstNibble_eq (op : Nat) : firstNibble op = op / 4096 % 16 := by
  show (op &&& (15 <<< 12)) >>> 12 = op / 4096 % 16
  rw [and_shiftLeft_shiftRight, Nat.shiftRight_eq_div_pow]
  exact Nat.and_pow_two_sub_one_eq_mod _ 4
theorem secondNibble_eq (op : Nat) : secondNibble op = op / 256 % 16 := by
  show (op &&& (15 <<< 8)) >>> 8 = op / 256 % 16
  rw [and_shiftLeft_shiftRight, Nat.shiftRight_eq_div_pow]
  exact Nat.and_pow_two_sub_one_eq_mod _ 4
theorem thirdNibble_eq (op : Nat) : thirdNibble op = op / 16 % 16 := by
  show (op &&& (15 <<< 4)) >>> 4 = op / 16 % 16
  rw [and_shiftLeft_shiftRight, Nat.shiftRight_eq_div_pow]
  exact Nat.and_pow_two_sub_one_eq_mod _ 4
theorem fourthNibble_eq (op : Nat) : fourthNibble op = op % 16 := by
  unfold fourthNibble
  exact Nat.and_pow_two_sub_one_eq_mod _ 4
theorem lowNNN_eq (op : Nat) : lowNNN op = op % 4096 := by
  unfold lowNNN
  exact Nat.and_pow_two_sub_one_eq_mod _ 12
theorem lowNN_eq (op : Nat) : lowNN op = op % 256 := by
  unfold lowNN
  exact Nat.and_pow_two_sub_one_eq_mod _ 8

/-! ## The sprite blit -/

theorem forLoop_succ {σ : Type} (body : Nat → σ → σ) (n : Nat) (s : σ) :
    forLoop body (n + 1) s = body n (forLoop body n s) := rfl

/-- The inner loop of `draw` after `n` columns of sprite row `i`: the `n`
cells visited are flipped where the sprite bit is 1, no other cell changes,
and the flag records a hit on a cell that held 1. -/
theorem drawPixel_loop (Vx Vy i b : Nat) (acc : (Nat → Nat → Nat) × Bool) (n : Nat)
    (hn : n ≤ 64) :
    (∀ j, j < n → (forLoop (drawPixel Vx Vy i b) n acc).1 ((Vy + i) % 32) ((Vx + j) % 64)
        = if (b >>> (7 - j)) &&& 1 = 1 then acc.1 ((Vy + i) % 32) ((Vx + j) % 64) ^^^ 1
          else acc.1 ((Vy + i) % 32) ((Vx + j) % 64)) ∧
    (∀ r c, (∀ j, j < n → ¬ (r = (Vy + i) % 32 ∧ c = (Vx + j) % 64)) →
        (forLoop (drawPixel Vx Vy i b) n acc).1 r c = acc.1 r c) ∧
    ((forLoop (drawPixel Vx Vy i b) n acc).2 = true ↔
        acc.2 = true ∨ ∃ j, j < n ∧ (b >>> (7 - j)) &&& 1 = 1 ∧
          acc.1 ((Vy + i) % 32) ((Vx + j) % 64) = 1) := by
  induction n with
  | zero =>
    refine ⟨fun j hj => absurd hj (Nat.not_lt_zero j), fun r c _ => rfl, ?_⟩
    simp [forLoop]
  | succ n ih =>
    obtain ⟨ihA, ihB, ihC⟩ := ih (Nat.le_of_succ_le hn)
    have hfresh : (forLoop (drawPixel Vx Vy i b) n acc).1 ((Vy + i) % 32) ((Vx + n) % 64)
        = acc.1 ((Vy + i) % 32) ((Vx + n) % 64) := by
      apply ihB
      intro j hj h
      have := h.2
      omega
    rw [forLoop_succ]
    by_cases hb : (b >>> (7 - n)) &&& 1 = 1
    · refine ⟨?_, ?_, ?_⟩
      · intro j hj
        rcases Nat.lt_succ_iff_lt_or_eq.mp hj with hlt | rfl
        · have hne : (Vx + j) % 64 ≠ (Vx + n) % 64 := by omega
          simp only [drawPixel, hb, if_true, hne, and_false, if_false]
          exact ihA j hlt
        · simp only [drawPixel, hb, if_true, and_self, hfresh]
      · intro r c h
        have hn1 : ¬ (r = (Vy + i) % 32 ∧ c = (Vx + n) % 64) := h n (Nat.lt_succ_self n)
        simp only [drawPixel, hb, if_true, hn1, if_false]
        exact ihB r c (fun j hj => h j (Nat.lt_succ_of_lt hj))
      · simp only [drawPixel, hb, if_true, hfresh]
        constructor
        · intro h
          by_cases h1 : acc.1 ((Vy + i) % 32) ((Vx + n) % 64) = 1
          · exact Or.inr ⟨n, Nat.lt_succ_self n, hb, h1⟩
          · rw [if_neg h1] at h
            rcases ihC.mp h with h2 | ⟨j, hj, hbj, hg⟩
            · exact Or.inl h2
            · exact Or.inr ⟨j, Nat.lt_succ_of_lt hj, hbj, hg⟩
        · intro h
          by_cases h1 : acc.1 ((Vy + i) % 32) ((Vx + n) % 64) = 1
          · rw [if_pos h1]
          · rw [if_neg h1]
            apply ihC.mpr
            rcases h with h2 | ⟨j, hj, hbj, hg⟩
            · exact Or.inl h2
            · rcases Nat.lt_succ_iff_lt_or_eq.mp hj with hlt | rfl
              · exact Or.inr ⟨j, hlt, hbj, hg⟩
              · exact absurd hg h1
    · have hstep : drawPixel Vx Vy i b n (forLoop (drawPixel Vx Vy i b) n acc)
          = forLoop (drawPixel Vx Vy i b) n acc := by
        simp only [drawPixel, hb, if_false]
      rw [hstep]
      refine ⟨?_, ?_, ?_⟩
      · intro j hj
        rcases Nat.lt_succ_iff_lt_or_eq.mp hj with hlt | rfl
        · exact ihA j hlt
        · rw [if_neg hb, hfresh]
      · intro r c h
        exact ihB r c (fun j hj => h j (Nat.lt_succ_of_lt hj))
      · rw [ihC]
        constructor
        · rintro (h2 | ⟨j, hj, hbj, hg⟩)
          · exact Or.inl h2
          · exact Or.inr ⟨j, Nat.lt_succ_of_lt hj, hbj, hg⟩
        · rintro (h2 | ⟨j, hj, hbj, hg⟩)
          · exact Or.inl h2
          · rcases Nat.lt_succ_iff_lt_or_eq.mp hj with hlt | rfl
            · exact Or.inr ⟨j, hlt, hbj, hg⟩
            · exact absurd hbj hb

/-- The outer loop of `draw` after `n` sprite rows. -/
theorem drawRow_loop (Vx Vy : Nat) (sprite : List Nat) (acc : (Nat → Nat → Nat) × Bool)
    (n : Nat) (hn : n ≤ 32) :
    (∀ i j, i < n → j < 8 →
        (forLoop (drawRow Vx Vy sprite) n acc).1 ((Vy + i) % 32) ((Vx + j) % 64)
        = if (sprite.getD i 0 >>> (7 - j)) &&& 1 = 1
          then acc.1 ((Vy + i) % 32) ((Vx + j) % 64) ^^^ 1
          else acc.1 ((Vy + i) % 32) ((Vx + j) % 64)) ∧
    (∀ r c, (∀ i j, i < n → j < 8 → ¬ (r = (Vy + i) % 32 ∧ c = (Vx + j) % 64)) →
        (forLoop (drawRow Vx Vy sprite) n acc).1 r c = acc.1 r c) ∧
    ((forLoop (drawRow Vx Vy sprite) n acc).2 = true ↔
        acc.2 = true ∨ ∃ i j, i < n ∧ j < 8 ∧ (sprite.getD i 0 >>> (7 - j)) &&& 1 = 1 ∧
          acc.1 ((Vy + i) % 32) ((Vx + j) % 64) = 1) := by
  induction n with
  | zero =>
    refine ⟨fun i j hi => absurd hi (Nat.not_lt_zero i), fun r c _ => rfl, ?_⟩
    simp [forLoop]
  | succ n ih =>
    obtain ⟨ihA, ihB, ihC⟩ := ih (Nat.le_of_succ_le hn)
    have hfresh : ∀ c, (forLoop (drawRow Vx Vy sprite) n acc).1 ((Vy + n) % 32) c
        = acc.1 ((Vy + n) % 32) c := by
      intro c
      apply ihB
      intro i j hi _ h
      have := h.1
      omega
    obtain ⟨pA, pB, pC⟩ := drawPixel_loop Vx Vy n (sprite.getD n 0)
      (forLoop (drawRow Vx Vy sprite) n acc) 8 (by decide)
    rw [forLoop_succ]
    simp only [drawRow] at pA pB pC ⊢
    refine ⟨?_, ?_, ?_⟩
    · intro i j hi hj
      rcases Nat.lt_succ_iff_lt_or_eq.mp hi with hlt | rfl
      · rw [pB]
        · exact ihA i j hlt hj
        · intro k _ h
          have := h.1
          omega
      · rw [pA j hj, hfresh]
    · intro r c h
      rw [pB r c (fun j hj => h n j (Nat.lt_succ_self n) hj)]
      exact ihB r c (fun i j hi hj => h i j (Nat.lt_succ_of_lt hi) hj)
    · rw [pC, ihC]
      constructor
      · rintro ((h2 | ⟨i, j, hi, hj, hb, hg⟩) | ⟨j, hj, hb, hg⟩)
        · exact Or.inl h2
        · exact Or.inr ⟨i, j, Nat.lt_succ_of_lt hi, hj, hb, hg⟩
        · rw [hfresh] at hg
          exact Or.inr ⟨n, j, Nat.lt_succ_self n, hj, hb, hg⟩
      · rintro (h2 | ⟨i, j, hi, hj, hb, hg⟩)
        · exact Or.inl (Or.inl h2)
        · rcases Nat.lt_succ_iff_lt_or_eq.mp hi with hlt | rfl
          · exact Or.inl (Or.inr ⟨i, j, hlt, hj, hb, hg⟩)
          · refine Or.inr ⟨j, hj, hb, ?_⟩
            rw [hfresh]
            exact hg

theorem spritePixel_eq (b j : Nat) : (b >>> (7 - j)) &&& 1 = b / 2 ^ (7 - j) % 2 := by
  rw [Nat.and_one_is_mod, Nat.shiftRight_eq_div_pow]

theorem xor_spritePixel (v b j : Nat) :
    (if (b >>> (7 - j)) &&& 1 = 1 then v ^^^ 1 else v) = v ^^^ (b / 2 ^ (7 - j) % 2) := by
  rw [spritePixel_eq]
  rcases Nat.mod_two_eq_zero_or_one (b / 2 ^ (7 - j)) with h | h
  · rw [h]; simp
  · rw [h]; simp


/-- The effect of `draw` for a sprite of at most 32 rows, with the cell
coordinates written as the source computes them. -/
theorem draw_spec (grid : Nat → Nat → Nat) (Vx Vy : Nat) (sprite : List Nat)
    (hlen : sprite.length ≤ 32) :
    (∀ i j, i < sprite.length → j < 8 →
        (draw grid Vx Vy sprite).1 ((Vy + i) % 32) ((Vx + j) % 64)
        = grid ((Vy + i) % 32) ((Vx + j) % 64) ^^^ (sprite.getD i 0 / 2 ^ (7 - j) % 2)) ∧
    (∀ r c, (∀ i j, i < sprite.length → j < 8 → ¬ (r = (Vy + i) % 32 ∧ c = (Vx + j) % 64)) →
        (draw grid Vx Vy sprite).1 r c = grid r c) ∧
    ((draw grid Vx Vy sprite).2 = true ↔
        ∃ i j, i < sprite.length ∧ j < 8 ∧ sprite.getD i 0 / 2 ^ (7 - j) % 2 = 1 ∧
          grid ((Vy + i) % 32) ((Vx + j) % 64) = 1) := by
  obtain ⟨hA, hB, hC⟩ := drawRow_loop Vx Vy sprite (grid, false) sprite.length hlen
  refine ⟨?_, hB, ?_⟩
  · intro i j hi hj
    rw [← xor_spritePixel]
    exact hA i j hi hj
  · simp only [draw, hC, Bool.false_eq_true, false_or, spritePixel_eq]

theorem xor_one_eq_one (x : Nat) : x ^^^ 1 = 1 ↔ x = 0 := by
  constructor
  · intro h
    have h2 : x ^^^ 1 ^^^ 1 = 1 ^^^ 1 := by rw [h]
    rw [Nat.xor_assoc, Nat.xor_self, Nat.xor_zero] at h2
    exact h2
  · intro h
    rw [h]
    rfl

/-- C1: `draw` is an XOR blit with wrap-around.  For a sprite of at most 15
rows (and any origin, so in particular every byte origin), the cell in row
`(y mod 32 + i) mod 32` and column `(x mod 64 + j) mod 64` ends as its old
value XOR bit `7 - j` of `sprite[i]`; every cell that is no such target is
unchanged; the returned flag is true exactly when a sprite bit 1 met a cell
that held 1 before the call; and from the origin `x = 63`, `y = 31` row `i`
and column `j` of the sprite land on grid row `31, 0, 1, ..` and grid column
`63, 0, 1, ..`. -/
theorem draw_xor_blit (grid : Nat → Nat → Nat) (Vx Vy : Nat) (sprite : List Nat)
    (hlen : sprite.length ≤ 15) :
    (∀ i j, i < sprite.length → j < 8 →
        (draw grid Vx Vy sprite).1 ((Vy % 32 + i) % 32) ((Vx % 64 + j) % 64)
        = grid ((Vy % 32 + i) % 32) ((Vx % 64 + j) % 64)
            ^^^ (sprite.getD i 0 / 2 ^ (7 - j) % 2)) ∧
    (∀ r c, (∀ i j, i < sprite.length → j < 8 →
          ¬ (r = (Vy % 32 + i) % 32 ∧ c = (Vx % 64 + j) % 64)) →
        (draw grid Vx Vy sprite).1 r c = grid r c) ∧
    ((draw grid Vx Vy sprite).2 = true ↔
        ∃ i j, i < sprite.length ∧ j < 8 ∧ sprite.getD i 0 / 2 ^ (7 - j) % 2 = 1 ∧
          grid ((Vy % 32 + i) % 32) ((Vx % 64 + j) % 64) = 1) ∧
    (Vx = 63 → Vy = 31 → ∀ i j, i < sprite.length → j < 8 →
        (draw grid Vx Vy sprite).1 (if i = 0 then 31 else i - 1) (if j = 0 then 63 else j - 1)
        = grid (if i = 0 then 31 else i - 1) (if j = 0 then 63 else j - 1)
            ^^^ (sprite.getD i 0 / 2 ^ (7 - j) % 2)) := by
  have hrow : ∀ i, (Vy % 32 + i) % 32 = (Vy + i) % 32 := fun i => by omega
  have hcol : ∀ j, (Vx % 64 + j) % 64 = (Vx + j) % 64 := fun j => by omega
  obtain ⟨hA, hB, hC⟩ := draw_spec grid Vx Vy sprite (by omega)
  simp only [hrow, hcol]
  refine ⟨hA, hB, hC, ?_⟩
  intro hx hy i j hi hj
  have hr : (if i = 0 then 31 else i - 1) = (Vy + i) % 32 := by
    subst hy
    split <;> omega
  have hc : (if j = 0 then 63 else j - 1) = (Vx + j) % 64 := by
    subst hx
    split <;> omega
  rw [hr, hc]
  exact hA i j hi hj

/-- C2: drawing the same sprite (at most 15 rows) twice at the same origin
gives back the grid of before the first call, and the second call returns
collision exactly when the first call turned some cell from 0 to 1. -/
theorem draw_twice_restores (grid : Nat → Nat → Nat) (Vx Vy : Nat) (sprite : List Nat)
    (hlen : sprite.length ≤ 15) :
    (draw (draw grid Vx Vy sprite).1 Vx Vy sprite).1 = grid ∧
    ((draw (draw grid Vx Vy sprite).1 Vx Vy sprite).2 = true ↔
        ∃ r c, r < 32 ∧ c < 64 ∧ grid r c = 0 ∧ (draw grid Vx Vy sprite).1 r c = 1) := by
  obtain ⟨hA, hB, _⟩ := draw_spec grid Vx Vy sprite (by omega)
  obtain ⟨kA, kB, kC⟩ := draw_spec (draw grid Vx Vy sprite).1 Vx Vy sprite (by omega)
  constructor
  · funext r c
    by_cases h : ∃ i j, i < sprite.length ∧ j < 8 ∧ r = (Vy + i) % 32 ∧ c = (Vx + j) % 64
    · obtain ⟨i, j, hi, hj, rfl, rfl⟩ := h
      rw [kA i j hi hj, hA i j hi hj, Nat.xor_assoc, Nat.xor_self, Nat.xor_zero]
    · have h2 : ∀ i j, i < sprite.length → j < 8 →
          ¬ (r = (Vy + i) % 32 ∧ c = (Vx + j) % 64) :=
        fun i j hi hj hrc => h ⟨i, j, hi, hj, hrc.1, hrc.2⟩
      rw [kB r c h2, hB r c h2]
  · rw [kC]
    constructor
    · rintro ⟨i, j, hi, hj, hb, hg⟩
      rw [hA i j hi hj, hb, xor_one_eq_one] at hg
      refine ⟨(Vy + i) % 32, (Vx + j) % 64, Nat.mod_lt _ (by decide), Nat.mod_lt _ (by decide),
        hg, ?_⟩
      rw [hA i j hi hj, hb, hg]
      rfl
    · rintro ⟨r, c, _, _, h0, h1⟩
      by_cases h : ∃ i j, i < sprite.length ∧ j < 8 ∧ r = (Vy + i) % 32 ∧ c = (Vx + j) % 64
      · obtain ⟨i, j, hi, hj, rfl, rfl⟩ := h
        refine ⟨i, j, hi, hj, ?_, h1⟩
        rw [hA i j hi hj, h0, Nat.zero_xor] at h1
        exact h1
      · have h2 : ∀ i j, i < sprite.length → j < 8 →
            ¬ (r = (Vy + i) % 32 ∧ c = (Vx + j) % 64) :=
          fun i j hi hj hrc => h ⟨i, j, hi, hj, hrc.1, hrc.2⟩
        rw [hB r c h2, h0] at h1
        exact absurd h1 (by decide)

/-! ## Register access -/

/-- Reading back the register just written. -/
@[simp] theorem V_setV_same (e : Emulator) (i v : Nat) : (e.setV i v).V i = v := by
  simp [Emulator.V, Emulator.setV]

/-- Writing register `i` leaves every other register as it was. -/
theorem V_setV_ne (e : Emulator) (i v k : Nat) (h : k ≠ i) : (e.setV i v).V k = e.V k := by
  simp [Emulator.V, Emulator.setV, h]

/-- The statement `ProgramCounter += 2` touches no register. -/
@[simp] theorem V_skip (e : Emulator) (k : Nat) : e.skip.V k = e.V k := rfl

/-! ## Arithmetic opcodes -/

/-- An opcode with first nibble 8 runs the inner switch and then advances the
program counter. -/
theorem execOpcode_arith (host : Host) (e : Emulator) (opcode : Nat)
    (h : firstNibble opcode = 8) :
    execOpcode host e opcode = .next (execArith e opcode).skip := by
  simp only [execOpcode, h, Outcome.bind]

/-- C4: for every X and Y and every state whose registers hold 8-bit values,
opcode 8XY4 computes `sum = Vx + Vy` from the old values, writes
`VF = (sum > 255)` and then `Vx = sum mod 256` (everything else but the
program counter is untouched; for X = F the second write lands on VF itself).
With `Vx = Vy = 0xFF` (X other than F) the result is `VF = 1`, `Vx = 0xFE`,
and the ROM `62FF 6301 8234` run for three cycles from reset ends with
`V2 = 0`, `V3 = 1`, `VF = 1`. -/
theorem add_vx_vy_carry (host : Host) (e : Emulator) (X Y : Nat) (hX : X < 16) (hY : Y < 16)
    (h8 : ∀ i, i < 16 → e.V i < 256) :
    execOpcode host e (0x8004 + X * 0x100 + Y * 0x10)
      = .next (((e.setV 0xF (if e.V X + e.V Y > 255 then 1 else 0)).setV X
          ((e.V X + e.V Y) % 256)).skip) ∧
    (X ≠ 0xF → e.V X = 0xFF → e.V Y = 0xFF →
      ∃ e', execOpcode host e (0x8004 + X * 0x100 + Y * 0x10) = .next e' ∧
        e'.V 0xF = 1 ∧ e'.V X = 0xFE) ∧
    (∀ host1 host2 host3 : Host, ∃ e0 e',
      readProg Emulator.init (some [0x62, 0xFF, 0x63, 0x01, 0x82, 0x34]) = .next e0 ∧
      cycles e0 [host1, host2, host3] = .next e' ∧
      e'.V 2 = 0x00 ∧ e'.V 3 = 0x01 ∧ e'.V 0xF = 1) := by
  have hx := h8 X hX
  have hy := h8 Y hY
  have h1 : firstNibble (0x8004 + X * 0x100 + Y * 0x10) = 8 := by
    rw [firstNibble_eq]; omega
  have h2 : secondNibble (0x8004 + X * 0x100 + Y * 0x10) = X := by
    rw [secondNibble_eq]; omega
  have h3 : thirdNibble (0x8004 + X * 0x100 + Y * 0x10) = Y := by
    rw [thirdNibble_eq]; omega
  have h4 : fourthNibble (0x8004 + X * 0x100 + Y * 0x10) = 4 := by
    rw [fourthNibble_eq]; omega
  have hsum : u16 (u32 (e.V X + e.V Y)) = e.V X + e.V Y := by
    unfold u16 u32; omega
  have hmask : (e.V X + e.V Y) &&& 0xFF = (e.V X + e.V Y) % 256 :=
    Nat.and_pow_two_sub_one_eq_mod _ 8
  have hgen : execOpcode host e (0x8004 + X * 0x100 + Y * 0x10)
      = .next (((e.setV 0xF (if e.V X + e.V Y > 255 then 1 else 0)).setV X
          ((e.V X + e.V Y) % 256)).skip) := by
    rw [execOpcode_arith host e _ h1]
    simp only [execArith, h2, h3, h4, hsum, hmask]
  refine ⟨hgen, ?_, ?_⟩
  · intro hXF hvx hvy
    refine ⟨_, hgen, ?_, ?_⟩
    · rw [V_skip, V_setV_ne _ _ _ _ (Ne.symm hXF), V_setV_same, hvx, hvy]
      rfl
    · rw [V_skip, V_setV_same, hvx, hvy]
  · intro host1 host2 host3
    refine ⟨_, _, rfl, rfl, ?_, ?_, ?_⟩ <;> rfl

/-- C3: opcode 8XY5 at `Vx = 0`, `Vy = 1`.  The source subtracts in the 32-bit
`unsigned int` field of `Register` and never reduces the result to 8 bits
(`checkBorrow` is not called): `8015` leaves `V0 = 4294967295 = 0xFFFFFFFF`
rather than `0xFF`, with `VF = 0`.  The same state is reached by running the
ROM `6101 8015` for two cycles from reset. -/
theorem sub_vx_vy_no_wrap (host1 host2 : Host) :
    (∃ e', execOpcode host1 (Emulator.init.setV 1 1) 0x8015 = .next e' ∧
      e'.V 0 = 4294967295 ∧ e'.V 0 ≠ 0xFF ∧ e'.V 0xF = 0) ∧
    (∃ e0 e', readProg Emulator.init (some [0x61, 0x01, 0x80, 0x15]) = .next e0 ∧
      cycles e0 [host1, host2] = .next e' ∧
      e'.V 0 = 4294967295 ∧ e'.V 0 ≠ 0xFF ∧ e'.V 0xF = 0) := by
  refine ⟨⟨_, rfl, ?_, ?_, ?_⟩, ⟨_, _, rfl, rfl, ?_, ?_, ?_⟩⟩ <;> decide

/-- C5: opcode 8XYE at `Vx = 0x80`.  The source shifts the 32-bit
`unsigned int` field of `Register` and never reduces the result to 8 bits:
`800E` leaves `V0 = 256` rather than `(0x80 * 2) mod 256 = 0`, with `VF = 1`.
The same state is reached by running the ROM `6080 800E` for two cycles from
reset. -/
theorem shl_vx_no_wrap (host1 host2 : Host) :
    (∃ e', execOpcode host1 (Emulator.init.setV 0 0x80) 0x800E = .next e' ∧
      e'.V 0 = 256 ∧ e'.V 0 ≠ (0x80 * 2) % 256 ∧ e'.V 0xF = 1) ∧
    (∃ e0 e', readProg Emulator.init (some [0x60, 0x80, 0x80, 0x0E]) = .next e0 ∧
      cycles e0 [host1, host2] = .next e' ∧
      e'.V 0 = 256 ∧ e'.V 0 ≠ (0x80 * 2) % 256 ∧ e'.V 0xF = 1) := by
  refine ⟨⟨_, rfl, ?_, ?_, ?_⟩, ⟨_, _, rfl, rfl, ?_, ?_, ?_⟩⟩ <;> decide

/-! ## Calls and returns -/

/-- The effect of a CALL opcode (first nibble 2): the program counter is pushed
and replaced by `NNN - 2`, then advanced by 2. -/
theorem execOpcode_call (host : Host) (e : Emulator) (opcode : Nat)
    (h : firstNibble opcode = 2) :
    execOpcode host e opcode
      = .next { e with stack := e.ProgramCounter :: e.stack,
                       ProgramCounter := u16 (u16 (lowNNN opcode + 65536 - 2) + 2) } := by
  simp only [execOpcode, h, Outcome.bind, Emulator.skip]

/-- The effect of the RET opcode `00EE`. -/
theorem execOpcode_ret (host : Host) (e : Emulator) :
    execOpcode host e 0x00EE
      = match e.stack with
        | [] => .undefined
        | top :: rest => .next { e with ProgramCounter := u16 (top + 2), stack := rest } := by
  have h : firstNibble 0x00EE = 0 := by decide
  simp only [execOpcode, h]
  cases e.stack <;> simp [Outcome.bind, Emulator.skip]

/-- C6: from every state with 16-bit program counter `p` and for every target
`NNN` in `0..0xFFF`, CALL `2NNN` followed at once by RET `00EE` both succeed,
the CALL leaves the program counter at `NNN`, and the RET leaves it at
`p + 2` in the 16 bits of `ProgramCounter` (which is `p + 2` itself unless
`p` is `0xFFFE` or `0xFFFF`) with the stack exactly as before the CALL. -/
theorem call_then_ret (host1 host2 : Host) (e : Emulator) (NNN : Nat) (hN : NNN ≤ 0xFFF)
    (hpc : e.ProgramCounter < 65536) :
    ∃ e1 e2, execOpcode host1 e (0x2000 + NNN) = .next e1 ∧
      execOpcode host2 e1 0x00EE = .next e2 ∧
      e1.ProgramCounter = NNN ∧
      e2.ProgramCounter = (e.ProgramCounter + 2) % 65536 ∧
      (e.ProgramCounter + 2 < 65536 → e2.ProgramCounter = e.ProgramCounter + 2) ∧
      e2.stack = e.stack := by
  have h1 : firstNibble (0x2000 + NNN) = 2 := by
    rw [firstNibble_eq]; omega
  have h2 : lowNNN (0x2000 + NNN) = NNN := by
    rw [lowNNN_eq]; omega
  refine ⟨_, { e with ProgramCounter := u16 (e.ProgramCounter + 2) },
    execOpcode_call host1 e _ h1, ?_, ?_, ?_, ?_, ?_⟩
  · rw [execOpcode_ret]
  · simp only [h2, u16]; omega
  · rfl
  · intro h
    simp only [u16]; omega
  · rfl


/-! ## Faults the specification names -/

/-- A CALL word `0x2000 + NNN` pushes the current program counter and continues
at `NNN`. -/
theorem execOpcode_call_target (host : Host) (e : Emulator) (opcode : Nat)
    (h1 : 0x2000 ≤ opcode) (h2 : opcode ≤ 0x2FFF) :
    execOpcode host e opcode
      = .next { e with stack := e.ProgramCounter :: e.stack,
                       ProgramCounter := opcode - 0x2000 } := by
  have hf : firstNibble opcode = 2 := by
    rw [firstNibble_eq]; omega
  have hpc : u16 (u16 (lowNNN opcode + 65536 - 2) + 2) = opcode - 0x2000 := by
    rw [lowNNN_eq]
    unfold u16; omega
  rw [execOpcode_call host e opcode hf, hpc]

/-- C7, counterexample: from the reset state 16 CALL opcodes succeed and leave
16 return addresses on the stack, and the 17th CALL succeeds as well: it
pushes the current program counter `0x300` and leaves a stack of depth 17. -/
theorem seventeenth_call_succeeds :
    ∃ e16 e17, execOpcodes Emulator.init (List.replicate 16 (⟨0, []⟩, 0x2300)) = .next e16 ∧
      e16.stack.length = 16 ∧
      e16.stack = List.replicate 15 0x300 ++ [0x200] ∧ e16.ProgramCounter = 0x300 ∧
      execOpcode ⟨0, []⟩ e16 0x2300 = .next e17 ∧ e17.stack.length = 17 ∧
      e17.stack = e16.ProgramCounter :: e16.stack ∧
      e17.stack = List.replicate 16 0x300 ++ [0x200] ∧ e17.ProgramCounter = 0x300 := by
  refine ⟨_, _, rfl, ?_, ?_, ?_, rfl, ?_, ?_, ?_, ?_⟩ <;> decide

/-- C7, as amended: `std::stack` has no capacity, so any number of consecutive
CALL opcodes (words `0x2000 + NNN` with `NNN` in `0..0xFFF`) succeed from any
state and no CALL ends in a fault.  Each CALL pushes the program counter it
is executed at and continues at its `NNN`: one CALL leaves the stack
`PC :: stack`, and after the whole run the stack holds, on top of the old
stack, the old program counter and the targets of all CALLs but the last,
most recent first, so it is one deeper per CALL; the program counter ends at
the target of the last CALL. -/
theorem call_never_overflows (e : Emulator) (calls : List (Host × Nat))
    (hcall : ∀ c ∈ calls, 0x2000 ≤ c.2 ∧ c.2 ≤ 0x2FFF) :
    (∃ e', execOpcodes e calls = .next e' ∧
      e'.stack.length = e.stack.length + calls.length ∧
      e'.stack
        = ((e.ProgramCounter :: calls.map (fun c => c.2 - 0x2000)).dropLast).reverse ++ e.stack ∧
      e'.ProgramCounter = (calls.map (fun c => c.2 - 0x2000)).getLastD e.ProgramCounter) ∧
    (∀ (host : Host) (opcode : Nat), 0x2000 ≤ opcode → opcode ≤ 0x2FFF →
      ∃ e1, execOpcode host e opcode = .next e1 ∧
        e1.stack = e.ProgramCounter :: e.stack ∧ e1.ProgramCounter = opcode - 0x2000) := by
  refine ⟨?_, fun host opcode h1 h2 => ⟨_, execOpcode_call_target host e opcode h1 h2, rfl, rfl⟩⟩
  induction calls generalizing e with
  | nil => exact ⟨e, rfl, rfl, rfl, rfl⟩
  | cons c rest ih =>
    obtain ⟨host, opcode⟩ := c
    have hop := hcall (host, opcode) (List.mem_cons_self _ _)
    obtain ⟨e', he', hlen, hstack, hpc⟩ := ih
      { e with stack := e.ProgramCounter :: e.stack, ProgramCounter := opcode - 0x2000 }
      (fun c hc => hcall c (List.mem_cons_of_mem _ hc))
    refine ⟨e', ?_, ?_, ?_, ?_⟩
    · simp only [execOpcodes, execOpcode_call_target host e opcode hop.1 hop.2, Outcome.bind]
      exact he'
    · rw [hlen]
      simp only [List.length_cons]
      omega
    · rw [hstack]
      simp only [List.map_cons, List.dropLast_cons₂, List.reverse_cons, List.append_assoc,
        List.singleton_append]
    · rw [hpc]
      simp only [List.map_cons, List.getLastD_cons]

/-- C7, witness: two CALLs from the reset state; the stack ends as
`[0x204, 0x200]`, the two program counters the CALLs were executed at. -/
theorem call_never_overflows_witness :
    (∀ c ∈ [((⟨7, []⟩ : Host), 0x2204), (⟨9, []⟩, 0x2ABC)], 0x2000 ≤ c.2 ∧ c.2 ≤ 0x2FFF) ∧
    ∃ e', execOpcodes Emulator.init [(⟨7, []⟩, 0x2204), (⟨9, []⟩, 0x2ABC)] = .next e' ∧
      e'.stack.length = Emulator.init.stack.length + 2 ∧
      e'.stack = [0x204, 0x200] ∧ e'.ProgramCounter = 0xABC :=
  ⟨by decide, (call_never_overflows Emulator.init [(⟨7, []⟩, 0x2204), (⟨9, []⟩, 0x2ABC)]
    (by decide)).1⟩

/-- C8, counterexample: in the reset state the stack is empty, and `00EE` there
does not end the run with an error report: the source calls `top()` and
`pop()` on the empty stack unchecked, which has no defined result. -/
theorem ret_on_empty_stack_reports_nothing :
    Emulator.init.stack = [] ∧
    execOpcode ⟨0, []⟩ Emulator.init 0x00EE = .undefined ∧
    (∀ code, execOpcode ⟨0, []⟩ Emulator.init 0x00EE ≠ .exit code) := by
  refine ⟨rfl, rfl, ?_⟩
  intro code h
  have h2 : (Outcome.undefined : Outcome Emulator) = .exit code := h
  cases h2

/-- C8, as amended: `00EE` on an empty stack is not checked by the source.  It
reports no error (the process is not ended) and it defines no next state: the
outcome is the undefined behaviour of `top()` on an empty `std::stack`. -/
theorem ret_on_empty_stack_undefined (host : Host) (e : Emulator) (hempty : e.stack = []) :
    execOpcode host e 0x00EE = .undefined ∧
    (∀ code, execOpcode host e 0x00EE ≠ .exit code) ∧
    (∀ e', execOpcode host e 0x00EE ≠ .next e') := by
  have h : execOpcode host e 0x00EE = .undefined := by
    rw [execOpcode_ret, hempty]
  rw [h]
  refine ⟨rfl, ?_, ?_⟩
  · intro code h2
    cases h2
  · intro e' h2
    cases h2

/-- C8, witness: a state with `V3 = 7` and an empty stack. -/
theorem ret_on_empty_stack_undefined_witness :
    (Emulator.init.setV 3 7).stack = [] ∧
    execOpcode ⟨5, []⟩ (Emulator.init.setV 3 7) 0x00EE = .undefined :=
  ⟨rfl, (ret_on_empty_stack_undefined ⟨5, []⟩ (Emulator.init.setV 3 7) rfl).1⟩


/-- C10: for every X and every 8-bit value `v` of `Vx`, when `I + 2` is a
valid address, opcode FX33 writes `M[I] = hundreds`, `M[I+1] = tens`,
`M[I+2] = units`, each a decimal digit, with
`hundreds * 100 + tens * 10 + units = v`, and changes no other memory byte;
the ROM `60FE A300 F033` run for three cycles from reset leaves
`M[0x300] = 2`, `M[0x301] = 5`, `M[0x302] = 4`. -/
theorem bcd_store (host : Host) (e : Emulator) (X : Nat) (hX : X < 16)
    (hv : e.V X < 256) (hI : e.IRegister.value + 2 < 4096) :
    (∃ e' hundreds tens units,
      execOpcode host e (0xF033 + X * 0x100) = .next e' ∧
      e'.Memory e.IRegister.value = hundreds ∧
      e'.Memory (e.IRegister.value + 1) = tens ∧
      e'.Memory (e.IRegister.value + 2) = units ∧
      hundreds ≤ 9 ∧ tens ≤ 9 ∧ units ≤ 9 ∧
      hundreds * 100 + tens * 10 + units = e.V X ∧
      (∀ a, a ≠ e.IRegister.value → a ≠ e.IRegister.value + 1 →
        a ≠ e.IRegister.value + 2 → e'.Memory a = e.Memory a)) ∧
    (∀ host1 host2 host3 : Host, ∃ e0 e',
      readProg Emulator.init (some [0x60, 0xFE, 0xA3, 0x00, 0xF0, 0x33]) = .next e0 ∧
      cycles e0 [host1, host2, host3] = .next e' ∧
      e'.Memory 0x300 = 2 ∧ e'.Memory 0x301 = 5 ∧ e'.Memory 0x302 = 4) := by
  have h1 : firstNibble (0xF033 + X * 0x100) = 0xF := by
    rw [firstNibble_eq]; omega
  have h2 : secondNibble (0xF033 + X * 0x100) = X := by
    rw [secondNibble_eq]; omega
  have h3 : lowNN (0xF033 + X * 0x100) = 0x33 := by
    rw [lowNN_eq]; omega
  have i2 : u32 (e.IRegister.value + 2) = e.IRegister.value + 2 := by
    unfold u32; omega
  have i1 : u32 (e.IRegister.value + 1) = e.IRegister.value + 1 := by
    unfold u32; omega
  have b2 : e.IRegister.value + 2 < 4096 := hI
  have b1 : e.IRegister.value + 1 < 4096 := by omega
  have b0 : e.IRegister.value < 4096 := by omega
  have hu : u8 (e.V X) = e.V X := by
    unfold u8; omega
  have hex : execOpcode host e (0xF033 + X * 0x100) = .next
      { e with
        Memory := fun k =>
          if k = e.IRegister.value then e.V X / 10 / 10 % 10
          else if k = e.IRegister.value + 1 then e.V X / 10 % 10
          else if k = e.IRegister.value + 2 then e.V X % 10
          else e.Memory k,
        ProgramCounter := u16 (e.ProgramCounter + 2) } := by
    simp only [execOpcode, h1, execMisc, h3, h2, hu, Emulator.writeMem, i2, i1, b2, b1, b0,
      if_true, Outcome.bind, Emulator.skip]
  constructor
  · refine ⟨_, e.V X / 10 / 10 % 10, e.V X / 10 % 10, e.V X % 10, hex,
      ?_, ?_, ?_, ?_, ?_, ?_, ?_, ?_⟩
    · simp
    · simp
    · simp
    · omega
    · omega
    · omega
    · omega
    · intro a a0 a1 a2
      simp [a0, a1, a2]
  · intro host1 host2 host3
    refine ⟨_, _, rfl, rfl, ?_, ?_, ?_⟩ <;> rfl

/-- C10, witness: `V3 = 0xFE` and `I = 0` in the reset state. -/
theorem bcd_store_witness :
    (3 : Nat) < 16 ∧ (Emulator.init.setV 3 0xFE).V 3 < 256 ∧
    (Emulator.init.setV 3 0xFE).IRegister.value + 2 < 4096 ∧
    ∃ e' hundreds tens units,
      execOpcode ⟨0, []⟩ (Emulator.init.setV 3 0xFE) (0xF033 + 3 * 0x100) = .next e' ∧
      e'.Memory (Emulator.init.setV 3 0xFE).IRegister.value = hundreds ∧
      e'.Memory ((Emulator.init.setV 3 0xFE).IRegister.value + 1) = tens ∧
      e'.Memory ((Emulator.init.setV 3 0xFE).IRegister.value + 2) = units ∧
      hundreds ≤ 9 ∧ tens ≤ 9 ∧ units ≤ 9 ∧
      hundreds * 100 + tens * 10 + units = (Emulator.init.setV 3 0xFE).V 3 ∧
      (∀ a, a ≠ (Emulator.init.setV 3 0xFE).IRegister.value →
        a ≠ (Emulator.init.setV 3 0xFE).IRegister.value + 1 →
        a ≠ (Emulator.init.setV 3 0xFE).IRegister.value + 2 →
        e'.Memory a = (Emulator.init.setV 3 0xFE).Memory a) :=
  ⟨by decide, by decide, by decide,
    (bcd_store ⟨0, []⟩ (Emulator.init.setV 3 0xFE) 3 (by decide) (by decide) (by decide)).1⟩

/-! ## Instances at concrete inputs -/

/-- C1, witness: the sprite `FF 81` drawn at `x = 63`, `y = 31` on the empty
grid; row 1, column 0 of the sprite lands on grid row 0, column 63. -/
theorem draw_xor_blit_witness :
    [0xFF, 0x81].length ≤ 15 ∧ (draw (fun _ _ => 0) 63 31 [0xFF, 0x81]).1 0 63 = 1 :=
  ⟨by decide,
    (draw_xor_blit (fun _ _ => 0) 63 31 [0xFF, 0x81] (by decide)).2.2.2 rfl rfl 1 0
      (by decide) (by decide)⟩

/-- C2, witness: the one-row sprite `FF` drawn twice at the origin of the empty
grid. -/
theorem draw_twice_restores_witness :
    [0xFF].length ≤ 15 ∧
    (draw (draw (fun _ _ => 0) 0 0 [0xFF]).1 0 0 [0xFF]).1 = (fun _ _ => 0) :=
  ⟨by decide, (draw_twice_restores (fun _ _ => 0) 0 0 [0xFF] (by decide)).1⟩

/-- C4, witness: `8014` with `V0 = V1 = 0xFF`. -/
theorem add_vx_vy_carry_witness :
    (0 : Nat) < 16 ∧ (1 : Nat) < 16 ∧
    (∀ i, i < 16 → ((Emulator.init.setV 0 0xFF).setV 1 0xFF).V i < 256) ∧
    ∃ e', execOpcode ⟨0, []⟩ ((Emulator.init.setV 0 0xFF).setV 1 0xFF) 0x8014 = .next e' ∧
      e'.V 0xF = 1 ∧ e'.V 0 = 0xFE :=
  ⟨by decide, by decide, by decide,
    (add_vx_vy_carry ⟨0, []⟩ ((Emulator.init.setV 0 0xFF).setV 1 0xFF) 0 1 (by decide)
      (by decide) (by decide)).2.1 (by decide) rfl rfl⟩

/-- C6, witness: CALL `0x300` and RET from the reset state. -/
theorem call_then_ret_witness :
    (0x300 : Nat) ≤ 0xFFF ∧ Emulator.init.ProgramCounter < 65536 ∧
    ∃ e1 e2, execOpcode ⟨0, []⟩ Emulator.init (0x2000 + 0x300) = .next e1 ∧
      execOpcode ⟨0, []⟩ e1 0x00EE = .next e2 ∧
      e1.ProgramCounter = 0x300 ∧
      e2.ProgramCounter = (Emulator.init.ProgramCounter + 2) % 65536 ∧
      (Emulator.init.ProgramCounter + 2 < 65536 →
        e2.ProgramCounter = Emulator.init.ProgramCounter + 2) ∧
      e2.stack = Emulator.init.stack :=
  ⟨by decide, by decide,
    call_then_ret ⟨0, []⟩ ⟨0, []⟩ Emulator.init 0x300 (by decide) (by decide)⟩

/-! ## Loops and sequencing -/

/-- A sequence returns exactly when both of its parts return. -/
theorem bind_eq_next {α β : Type} (o : Outcome α) (f : α → Outcome β) (b : β) :
    o.bind f = .next b ↔ ∃ a, o = .next a ∧ f a = .next b := by
  cases o <;> simp [Outcome.bind]

/-- The last pass of a counted loop. -/
theorem forLoopO_succ {σ : Type} (body : Nat → σ → Outcome σ) (n : Nat) (s : σ) :
    forLoopO body (n + 1) s = (forLoopO body n s).bind (body n) := rfl

/-- A property kept by every pass of a loop holds when the loop returns. -/
theorem forLoopO_invariant {σ : Type} (P : σ → Prop) (body : Nat → σ → Outcome σ) (n : Nat)
    (s s' : σ) (hbody : ∀ i t t', i < n → P t → body i t = .next t' → P t')
    (hs : P s) (h : forLoopO body n s = .next s') : P s' := by
  induction n generalizing s' with
  | zero =>
    simp only [forLoopO, Outcome.next.injEq] at h
    exact h ▸ hs
  | succ n ih =>
    rw [forLoopO_succ, bind_eq_next] at h
    obtain ⟨t, ht, hbt⟩ := h
    exact hbody n t s' (Nat.lt_succ_self n)
      (ih t (fun i a b hi => hbody i a b (Nat.lt_succ_of_lt hi)) ht) hbt

/-- A loop returns when every pass returns on the states that can reach it. -/
theorem forLoopO_defined {σ : Type} (P : σ → Prop) (body : Nat → σ → Outcome σ) (n : Nat)
    (s : σ) (hbody : ∀ i t, i < n → P t → ∃ t', body i t = .next t' ∧ P t')
    (hs : P s) : ∃ s', forLoopO body n s = .next s' ∧ P s' := by
  induction n with
  | zero => exact ⟨s, rfl, hs⟩
  | succ n ih =>
    obtain ⟨t, ht, hPt⟩ := ih (fun i a hi => hbody i a (Nat.lt_succ_of_lt hi))
    obtain ⟨t', ht', hPt'⟩ := hbody n t (Nat.lt_succ_self n) hPt
    exact ⟨t', by rw [forLoopO_succ, ht]; exact ht', hPt'⟩

/-- A loop has no defined result when one of its passes has none, provided
every earlier pass either returns or has no defined result itself. -/
theorem forLoopO_undefined {σ : Type} (P : σ → Prop) (body : Nat → σ → Outcome σ) (n k : Nat)
    (s : σ) (hk : k < n)
    (hbody : ∀ i t, i < k → P t → (∃ t', body i t = .next t' ∧ P t') ∨ body i t = .undefined)
    (hbad : ∀ t, P t → body k t = .undefined)
    (hs : P s) : forLoopO body n s = .undefined := by
  have hpre : ∀ m, m ≤ k →
      (∃ t, forLoopO body m s = .next t ∧ P t) ∨ forLoopO body m s = .undefined := by
    intro m
    induction m with
    | zero => exact fun _ => Or.inl ⟨s, rfl, hs⟩
    | succ m ih =>
      intro hm
      rw [forLoopO_succ]
      rcases ih (Nat.le_of_succ_le hm) with ⟨t, ht, hPt⟩ | hu
      · rw [ht]
        exact hbody m t hm hPt
      · rw [hu]
        exact Or.inr rfl
  have hat : forLoopO body (k + 1) s = .undefined := by
    rw [forLoopO_succ]
    rcases hpre k (Nat.le_refl k) with ⟨t, ht, hPt⟩ | hu
    · rw [ht]
      exact hbad t hPt
    · rw [hu]
      rfl
  have hpost : ∀ d, forLoopO body (k + 1 + d) s = .undefined := by
    intro d
    induction d with
    | zero => exact hat
    | succ d ih =>
      rw [← Nat.add_assoc, forLoopO_succ, ih]
      rfl
  have hn : n = k + 1 + (n - (k + 1)) := by omega
  rw [hn]
  exact hpost _

/-! ## Register save and restore -/

/-- A value below 2^32 is its own `unsigned int`. -/
theorem u32_small (n : Nat) (h : n < 4294967296) : u32 n = n := Nat.mod_eq_of_lt h

/-- The store loop of `FX55` after `n` passes, while the addresses stay inside
the memory vector. -/
theorem storeRegs_loop (e : Emulator) (n : Nat) (hn : e.IRegister.value + n ≤ 4096) :
    forLoopO (fun i (e1 : Emulator) =>
        e1.writeMem (u32 (e1.IRegister.value + i)) (u8 (e1.V i))) n e
      = .next { e with Memory := (fun a =>
          if e.IRegister.value ≤ a ∧ a < e.IRegister.value + n then
            u8 (e.V (a - e.IRegister.value))
          else e.Memory a) } := by
  induction n with
  | zero =>
    simp only [forLoopO, Nat.add_zero]
    congr 1
    have h : e.Memory = fun a =>
        if e.IRegister.value ≤ a ∧ a < e.IRegister.value then
          u8 (e.V (a - e.IRegister.value))
        else e.Memory a := by
      funext a
      rw [if_neg (by omega)]
    rw [← h]
  | succ n ih =>
    rw [forLoopO_succ, ih (by omega)]
    have hu : u32 (e.IRegister.value + n) = e.IRegister.value + n := u32_small _ (by omega)
    have hlt : e.IRegister.value + n < 4096 := by omega
    simp only [Outcome.bind, Emulator.writeMem, hu, hlt, if_true, Emulator.V]
    congr 2
    funext a
    by_cases h1 : a = e.IRegister.value + n
    · subst h1
      rw [if_pos rfl, if_pos (by omega)]
      simp
    · rw [if_neg h1]
      by_cases h2 : e.IRegister.value ≤ a ∧ a < e.IRegister.value + n
      · rw [if_pos h2, if_pos (by omega)]
      · rw [if_neg h2, if_neg (by omega)]

/-- The load loop of `FX65` after `n` passes, while the addresses stay inside
the memory vector. -/
theorem loadRegs_loop (e : Emulator) (n : Nat) (hn : e.IRegister.value + n ≤ 4096) :
    forLoopO (fun i (e1 : Emulator) =>
        (e1.readMem (u32 (e1.IRegister.value + i))).bind (fun b => .next (e1.setV i b))) n e
      = .next { e with Registers := fun k =>
          if k < n then { e.Registers k with value := e.Memory (e.IRegister.value + k) }
          else e.Registers k } := by
  induction n with
  | zero =>
    simp only [forLoopO, Nat.not_lt_zero, if_false]
  | succ n ih =>
    rw [forLoopO_succ, ih (by omega)]
    have hu : u32 (e.IRegister.value + n) = e.IRegister.value + n := u32_small _ (by omega)
    have hlt : e.IRegister.value + n < 4096 := by omega
    simp only [Outcome.bind, Emulator.readMem, hu, hlt, if_true, Emulator.setV]
    congr 2
    funext k
    by_cases h1 : k = n
    · subst h1
      simp
    · rw [if_neg h1]
      by_cases h2 : k < n
      · rw [if_pos h2, if_pos (by omega)]
      · rw [if_neg h2, if_neg (by omega)]

/-- An opcode with first nibble F runs the inner switch on `NN` and then
advances the program counter. -/
theorem execOpcode_misc (host : Host) (e : Emulator) (opcode : Nat)
    (h : firstNibble opcode = 0xF) :
    execOpcode host e opcode = (execMisc host e opcode).bind (fun e1 => .next e1.skip) := by
  simp only [execOpcode, h]

/-- The `case 0x55` of the inner switch. -/
theorem execMisc_store (host : Host) (e : Emulator) (opcode : Nat) (h : lowNN opcode = 0x55) :
    execMisc host e opcode
      = forLoopO (fun i (e1 : Emulator) =>
          e1.writeMem (u32 (e1.IRegister.value + i)) (u8 (e1.V i))) (secondNibble opcode + 1) e := by
  simp only [execMisc, h]

/-- The `case 0x65` of the inner switch. -/
theorem execMisc_load (host : Host) (e : Emulator) (opcode : Nat) (h : lowNN opcode = 0x65) :
    execMisc host e opcode
      = forLoopO (fun i (e1 : Emulator) =>
          (e1.readMem (u32 (e1.IRegister.value + i))).bind (fun b => .next (e1.setV i b)))
          (secondNibble opcode + 1) e := by
  simp only [execMisc, h]

/-- C11: for every X in 0..15 and every state with `I + X` at most 4095 and
8-bit registers, FX55 returns and changes neither `I` nor any register; and
after any overwrite of `V0..VX` (any state with the same memory and `I` and
the same registers above `VX`) FX65 returns with `V0..VX` equal to the values
they had before the FX55, with `I` unchanged and every register above `VX`
unchanged. -/
theorem store_load_roundtrip (host1 host2 : Host) (e : Emulator) (X : Nat) (hX : X < 16)
    (hI : e.IRegister.value + X ≤ 4095) (h8 : ∀ i, i < 16 → e.V i < 256) :
    ∃ e1, execOpcode host1 e (0xF055 + X * 0x100) = .next e1 ∧
      e1.IRegister = e.IRegister ∧ e1.Registers = e.Registers ∧
      ∀ e1' : Emulator, e1'.Memory = e1.Memory → e1'.IRegister = e1.IRegister →
        (∀ k, X < k → e1'.Registers k = e1.Registers k) →
        ∃ e2, execOpcode host2 e1' (0xF065 + X * 0x100) = .next e2 ∧
          (∀ i, i ≤ X → e2.V i = e.V i) ∧
          e2.IRegister = e.IRegister ∧
          (∀ k, X < k → e2.Registers k = e.Registers k) := by
  have s1 : firstNibble (0xF055 + X * 0x100) = 0xF := by rw [firstNibble_eq]; omega
  have s2 : secondNibble (0xF055 + X * 0x100) = X := by rw [secondNibble_eq]; omega
  have s3 : lowNN (0xF055 + X * 0x100) = 0x55 := by rw [lowNN_eq]; omega
  have l1 : firstNibble (0xF065 + X * 0x100) = 0xF := by rw [firstNibble_eq]; omega
  have l2 : secondNibble (0xF065 + X * 0x100) = X := by rw [secondNibble_eq]; omega
  have l3 : lowNN (0xF065 + X * 0x100) = 0x65 := by rw [lowNN_eq]; omega
  refine ⟨({ e with Memory := (fun a =>
      if e.IRegister.value ≤ a ∧ a < e.IRegister.value + (X + 1) then
        u8 (e.V (a - e.IRegister.value))
      else e.Memory a) } : Emulator).skip, ?_, ?_, ?_, ?_⟩
  · rw [execOpcode_misc host1 e _ s1, execMisc_store host1 e _ s3, s2,
      storeRegs_loop e (X + 1) (by omega)]
    rfl
  · rfl
  · rfl
  · intro e1' hM hIr hR
    have hIv : e1'.IRegister.value = e.IRegister.value := by rw [hIr]; rfl
    refine ⟨({ e1' with Registers := fun k =>
        if k < X + 1 then { e1'.Registers k with value := e1'.Memory (e1'.IRegister.value + k) }
        else e1'.Registers k } : Emulator).skip, ?_, ?_, ?_, ?_⟩
    · rw [execOpcode_misc host2 e1' _ l1, execMisc_load host2 e1' _ l3, l2,
        loadRegs_loop e1' (X + 1) (by omega)]
      rfl
    · intro i hi
      have hi16 : i < 16 := by omega
      have hv := h8 i hi16
      simp only [Emulator.V, Emulator.skip, Nat.lt_succ_iff, hi, if_true, hM, hIv]
      rw [if_pos (by omega)]
      simp only [Nat.add_sub_cancel_left, u8, Emulator.V]
      exact Nat.mod_eq_of_lt hv
    · simp only [Emulator.skip]
      exact hIr
    · intro k hk
      simp only [Emulator.skip]
      rw [if_neg (by omega)]
      exact hR k hk

/-! ## Addresses formed from `I` -/

/-- A write inside the memory vector. -/
theorem writeMem_of_lt (e : Emulator) (idx v : Nat) (h : idx < 4096) :
    e.writeMem idx v = .next { e with Memory := fun k => if k = idx then v else e.Memory k } := by
  simp only [Emulator.writeMem, h, if_true]

/-- A write outside the memory vector. -/
theorem writeMem_of_ge (e : Emulator) (idx v : Nat) (h : 4096 ≤ idx) :
    e.writeMem idx v = .undefined := by
  simp only [Emulator.writeMem, Nat.not_lt.mpr h, if_false]

/-- A read inside the memory vector. -/
theorem readMem_of_lt (e : Emulator) (idx : Nat) (h : idx < 4096) :
    e.readMem idx = .next (e.Memory idx) := by
  simp only [Emulator.readMem, h, if_true]

/-- A read outside the memory vector. -/
theorem readMem_of_ge (e : Emulator) (idx : Nat) (h : 4096 ≤ idx) :
    e.readMem idx = .undefined := by
  simp only [Emulator.readMem, Nat.not_lt.mpr h, if_false]

/-- The store loop of `FX55` has no defined result once an address leaves the
memory vector. -/
theorem storeRegs_loop_undefined (e : Emulator) (n : Nat) (hn : n ≤ 16) (hpos : 0 < n)
    (hI32 : e.IRegister.value < 4294967296) (hbad : 4096 < e.IRegister.value + n) :
    forLoopO (fun i (e1 : Emulator) =>
        e1.writeMem (u32 (e1.IRegister.value + i)) (u8 (e1.V i))) n e = .undefined := by
  apply forLoopO_undefined (fun t => t.IRegister = e.IRegister) _ n
    (4096 - e.IRegister.value) e (by omega)
  · intro i t hi hP
    have hu : u32 (e.IRegister.value + i) = e.IRegister.value + i := u32_small _ (by omega)
    have hlt : e.IRegister.value + i < 4096 := by omega
    refine Or.inl ⟨{ t with Memory := fun k =>
      if k = e.IRegister.value + i then u8 (t.V i) else t.Memory k }, ?_, hP⟩
    have hidx : u32 (t.IRegister.value + i) = e.IRegister.value + i := by rw [hP]; exact hu
    show t.writeMem (u32 (t.IRegister.value + i)) (u8 (t.V i)) = _
    rw [hidx]
    exact writeMem_of_lt t _ _ hlt
  · intro t hP
    have hu : u32 (e.IRegister.value + (4096 - e.IRegister.value))
        = e.IRegister.value + (4096 - e.IRegister.value) := u32_small _ (by omega)
    show t.writeMem (u32 (t.IRegister.value + (4096 - e.IRegister.value))) _ = _
    rw [hP, hu]
    exact writeMem_of_ge t _ _ (by omega)
  · rfl

/-- The load loop of `FX65` has no defined result once an address leaves the
memory vector. -/
theorem loadRegs_loop_undefined (e : Emulator) (n : Nat) (hn : n ≤ 16) (hpos : 0 < n)
    (hI32 : e.IRegister.value < 4294967296) (hbad : 4096 < e.IRegister.value + n) :
    forLoopO (fun i (e1 : Emulator) =>
        (e1.readMem (u32 (e1.IRegister.value + i))).bind (fun b => .next (e1.setV i b))) n e
      = .undefined := by
  apply forLoopO_undefined (fun t => t.IRegister = e.IRegister) _ n
    (4096 - e.IRegister.value) e (by omega)
  · intro i t hi hP
    have hu : u32 (e.IRegister.value + i) = e.IRegister.value + i := u32_small _ (by omega)
    have hlt : e.IRegister.value + i < 4096 := by omega
    refine Or.inl ⟨t.setV i (t.Memory (e.IRegister.value + i)), ?_, ?_⟩
    · show (t.readMem (u32 (t.IRegister.value + i))).bind _ = _
      rw [hP, hu, readMem_of_lt t _ hlt]
      rfl
    · exact hP
  · intro t hP
    have hu : u32 (e.IRegister.value + (4096 - e.IRegister.value))
        = e.IRegister.value + (4096 - e.IRegister.value) := u32_small _ (by omega)
    show (t.readMem (u32 (t.IRegister.value + (4096 - e.IRegister.value)))).bind _ = _
    rw [hP, hu, readMem_of_ge t _ (by omega)]
    rfl
  · rfl

/-- The sprite copy loop of `DXYN` returns while the addresses stay inside the
memory vector. -/
theorem spriteCopy_defined (e : Emulator) (n : Nat) (sprite : List Nat)
    (hn : e.IRegister.value + n ≤ 4096) :
    ∃ sprite', forLoopO (fun i (sprite : List Nat) =>
        (e.readMem (u32 (e.IRegister.value + i))).bind (fun b => .next (sprite.set i b)))
        n sprite = .next sprite' := by
  obtain ⟨s', hs', _⟩ := forLoopO_defined (fun _ => True)
    (fun i (sprite : List Nat) =>
      (e.readMem (u32 (e.IRegister.value + i))).bind (fun b => .next (sprite.set i b)))
    n sprite
    (fun i t hi _ => by
      have hu : u32 (e.IRegister.value + i) = e.IRegister.value + i := u32_small _ (by omega)
      have hlt : e.IRegister.value + i < 4096 := by omega
      refine ⟨t.set i (e.Memory (e.IRegister.value + i)), ?_, trivial⟩
      show (e.readMem (u32 (e.IRegister.value + i))).bind _ = _
      rw [hu, readMem_of_lt e _ hlt]
      rfl)
    trivial
  exact ⟨s', hs'⟩

/-- The sprite copy loop of `DXYN` has no defined result once an address
leaves the memory vector. -/
theorem spriteCopy_undefined (e : Emulator) (n : Nat) (sprite : List Nat) (hn : n ≤ 16) (hpos : 0 < n)
    (hI32 : e.IRegister.value < 4294967296) (hbad : 4096 < e.IRegister.value + n) :
    forLoopO (fun i (sprite : List Nat) =>
        (e.readMem (u32 (e.IRegister.value + i))).bind (fun b => .next (sprite.set i b)))
        n sprite = .undefined := by
  apply forLoopO_undefined (fun _ => True) _ n (4096 - e.IRegister.value) sprite (by omega)
  · intro i t hi _
    have hu : u32 (e.IRegister.value + i) = e.IRegister.value + i := u32_small _ (by omega)
    have hlt : e.IRegister.value + i < 4096 := by omega
    refine Or.inl ⟨t.set i (e.Memory (e.IRegister.value + i)), ?_, trivial⟩
    show (e.readMem (u32 (e.IRegister.value + i))).bind _ = _
    rw [hu, readMem_of_lt e _ hlt]
    rfl
  · intro t _
    have hu : u32 (e.IRegister.value + (4096 - e.IRegister.value))
        = e.IRegister.value + (4096 - e.IRegister.value) := u32_small _ (by omega)
    show (e.readMem (u32 (e.IRegister.value + (4096 - e.IRegister.value)))).bind _ = _
    rw [hu, readMem_of_ge e _ (by omega)]
    rfl
  · trivial

/-- An opcode with first nibble D runs `case 0xD` and then advances the
program counter. -/
theorem execOpcode_draw (host : Host) (e : Emulator) (opcode : Nat)
    (h : firstNibble opcode = 0xD) :
    execOpcode host e opcode = (execDraw e opcode).bind (fun e1 => .next e1.skip) := by
  simp only [execOpcode, h]

/-- The `case 0x33` of the inner switch. -/
theorem execMisc_bcd (host : Host) (e : Emulator) (opcode : Nat) (h : lowNN opcode = 0x33) :
    execMisc host e opcode
      = (e.writeMem (u32 (e.IRegister.value + 2)) (u8 (e.V (secondNibble opcode)) % 10)).bind
          (fun e1 =>
        (e1.writeMem (u32 (e1.IRegister.value + 1))
            (u8 (e.V (secondNibble opcode)) / 10 % 10)).bind (fun e2 =>
        e2.writeMem e2.IRegister.value (u8 (e.V (secondNibble opcode)) / 10 / 10 % 10))) := by
  simp only [execMisc, h]

/-- The three writes of `FX33` have no defined result when `I + 2` lies outside
the memory vector. -/
theorem bcd_undefined (host : Host) (e : Emulator) (opcode : Nat) (h : lowNN opcode = 0x33)
    (hI32 : e.IRegister.value < 4294967296) (hbad : 4095 < e.IRegister.value + 2) :
    execMisc host e opcode = .undefined := by
  rw [execMisc_bcd host e opcode h]
  by_cases h2 : e.IRegister.value + 2 < 4294967296
  · have hu : u32 (e.IRegister.value + 2) = e.IRegister.value + 2 := u32_small _ h2
    have hge : ¬ e.IRegister.value + 2 < 4096 := by omega
    simp only [Emulator.writeMem, hu, hge, if_false, Outcome.bind]
  · by_cases h1 : e.IRegister.value + 1 < 4294967296
    · have hv : e.IRegister.value = 4294967294 := by omega
      simp [Emulator.writeMem, Outcome.bind, hv, u32]
    · have hv : e.IRegister.value = 4294967295 := by omega
      simp [Emulator.writeMem, Outcome.bind, hv, u32]

/-- The `case 0xD` of `execOpcode` once the sprite copy loop has returned. -/
theorem execDraw_of_sprite (e : Emulator) (opcode : Nat) (sprite' : List Nat)
    (h : forLoopO (fun i (sprite : List Nat) =>
        (e.readMem (u32 (e.IRegister.value + i))).bind (fun b => .next (sprite.set i b)))
        (fourthNibble opcode) (List.replicate (fourthNibble opcode) 0) = .next sprite') :
    execDraw e opcode
      = .next (({ e with grid := (draw e.grid (u8 (e.V (secondNibble opcode)))
            (u8 (e.V (thirdNibble opcode))) sprite').1 } : Emulator).setV 0xF
          (if (draw e.grid (u8 (e.V (secondNibble opcode)))
            (u8 (e.V (thirdNibble opcode))) sprite').2 then 1 else 0)) := by
  unfold execDraw
  simp only []
  rw [h]
  rfl

/-- The `case 0xD` of `execOpcode` when the sprite copy loop does not return. -/
theorem execDraw_of_not_next (e : Emulator) (opcode : Nat)
    (h : ∀ sprite', forLoopO (fun i (sprite : List Nat) =>
        (e.readMem (u32 (e.IRegister.value + i))).bind (fun b => .next (sprite.set i b)))
        (fourthNibble opcode) (List.replicate (fourthNibble opcode) 0) ≠ .next sprite')
    (e' : Emulator) : execDraw e opcode ≠ .next e' := by
  unfold execDraw
  simp only []
  intro hc
  rw [bind_eq_next] at hc
  obtain ⟨sp, hsp, _⟩ := hc
  exact h sp hsp

/-- C16, counterexample: after `AFFF` the index register holds `0xFFF`, and
`F155` there has no defined result: the second store indexes `Memory[0x1000]`
instead of wrapping to `Memory[0x000]`. -/
theorem store_at_last_address_undefined :
    (∃ e1, execOpcode ⟨0, []⟩ Emulator.init 0xAFFF = .next e1 ∧ e1.IRegister.value = 0xFFF ∧
      execOpcode ⟨0, []⟩ e1 0xF155 = .undefined) ∧
    (∀ e', execOpcode ⟨0, []⟩ (Emulator.init.setI 0xFFF) 0xF155 ≠ .next e') := by
  refine ⟨⟨_, rfl, rfl, rfl⟩, ?_⟩
  intro e' h
  have h2 : (Outcome.undefined : Outcome Emulator) = .next e' := h
  cases h2

/-- C16, as amended: the opcodes FX33, FX55, FX65 and DXYN index memory at
`I + offset` without reduction modulo 4096.  Each of them returns when every
address it forms is at most 4095 (for FX55 with `M[I + i] = Vi`, for FX65
with `Vi = M[I + i]`), and has no defined result as soon as one address is
above 4095. -/
theorem index_not_wrapped (host : Host) (e : Emulator) (X Y N : Nat) (hX : X < 16)
    (hY : Y < 16) (hN : N < 16) (hI32 : e.IRegister.value < 4294967296) :
    ((e.IRegister.value + 2 ≤ 4095 →
        ∃ e', execOpcode host e (0xF033 + X * 0x100) = .next e') ∧
      (4095 < e.IRegister.value + 2 →
        execOpcode host e (0xF033 + X * 0x100) = .undefined)) ∧
    ((e.IRegister.value + X ≤ 4095 →
        ∃ e', execOpcode host e (0xF055 + X * 0x100) = .next e' ∧
          ∀ i, i ≤ X → e'.Memory (e.IRegister.value + i) = u8 (e.V i)) ∧
      (4095 < e.IRegister.value + X →
        execOpcode host e (0xF055 + X * 0x100) = .undefined)) ∧
    ((e.IRegister.value + X ≤ 4095 →
        ∃ e', execOpcode host e (0xF065 + X * 0x100) = .next e' ∧
          ∀ i, i ≤ X → e'.V i = e.Memory (e.IRegister.value + i)) ∧
      (4095 < e.IRegister.value + X →
        execOpcode host e (0xF065 + X * 0x100) = .undefined)) ∧
    ((N = 0 ∨ e.IRegister.value + N ≤ 4096 →
        ∃ e', execOpcode host e (0xD000 + X * 0x100 + Y * 0x10 + N) = .next e') ∧
      (0 < N → 4096 < e.IRegister.value + N →
        execOpcode host e (0xD000 + X * 0x100 + Y * 0x10 + N) = .undefined)) := by
  have b1 : firstNibble (0xF033 + X * 0x100) = 0xF := by rw [firstNibble_eq]; omega
  have b3 : lowNN (0xF033 + X * 0x100) = 0x33 := by rw [lowNN_eq]; omega
  have s1 : firstNibble (0xF055 + X * 0x100) = 0xF := by rw [firstNibble_eq]; omega
  have s2 : secondNibble (0xF055 + X * 0x100) = X := by rw [secondNibble_eq]; omega
  have s3 : lowNN (0xF055 + X * 0x100) = 0x55 := by rw [lowNN_eq]; omega
  have l1 : firstNibble (0xF065 + X * 0x100) = 0xF := by rw [firstNibble_eq]; omega
  have l2 : secondNibble (0xF065 + X * 0x100) = X := by rw [secondNibble_eq]; omega
  have l3 : lowNN (0xF065 + X * 0x100) = 0x65 := by rw [lowNN_eq]; omega
  have d1 : firstNibble (0xD000 + X * 0x100 + Y * 0x10 + N) = 0xD := by
    rw [firstNibble_eq]; omega
  have d4 : fourthNibble (0xD000 + X * 0x100 + Y * 0x10 + N) = N := by
    rw [fourthNibble_eq]; omega
  refine ⟨⟨?_, ?_⟩, ⟨?_, ?_⟩, ⟨?_, ?_⟩, ⟨?_, ?_⟩⟩
  · intro h
    have i2 : u32 (e.IRegister.value + 2) = e.IRegister.value + 2 := u32_small _ (by omega)
    have i1 : u32 (e.IRegister.value + 1) = e.IRegister.value + 1 := u32_small _ (by omega)
    have c2 : e.IRegister.value + 2 < 4096 := by omega
    have c1 : e.IRegister.value + 1 < 4096 := by omega
    have c0 : e.IRegister.value < 4096 := by omega
    rw [execOpcode_misc host e _ b1, execMisc_bcd host e _ b3]
    simp only [Emulator.writeMem, i2, i1, c2, c1, c0, if_true, Outcome.bind]
    exact ⟨_, rfl⟩
  · intro h
    rw [execOpcode_misc host e _ b1, bcd_undefined host e _ b3 hI32 h]
    rfl
  · intro h
    refine ⟨({ e with Memory := (fun a =>
      if e.IRegister.value ≤ a ∧ a < e.IRegister.value + (X + 1) then
        u8 (e.V (a - e.IRegister.value))
      else e.Memory a) } : Emulator).skip, ?_, ?_⟩
    · rw [execOpcode_misc host e _ s1, execMisc_store host e _ s3, s2,
        storeRegs_loop e (X + 1) (by omega)]
      rfl
    · intro i hi
      simp only [Emulator.skip]
      rw [if_pos (by omega), Nat.add_sub_cancel_left]
  · intro h
    rw [execOpcode_misc host e _ s1, execMisc_store host e _ s3, s2,
      storeRegs_loop_undefined e (X + 1) (by omega) (by omega) hI32 (by omega)]
    rfl
  · intro h
    refine ⟨({ e with Registers := fun k =>
        if k < X + 1 then { e.Registers k with value := e.Memory (e.IRegister.value + k) }
        else e.Registers k } : Emulator).skip, ?_, ?_⟩
    · rw [execOpcode_misc host e _ l1, execMisc_load host e _ l3, l2,
        loadRegs_loop e (X + 1) (by omega)]
      rfl
    · intro i hi
      simp only [Emulator.skip, Emulator.V]
      rw [if_pos (by omega)]
  · intro h
    rw [execOpcode_misc host e _ l1, execMisc_load host e _ l3, l2,
      loadRegs_loop_undefined e (X + 1) (by omega) (by omega) hI32 (by omega)]
    rfl
  · intro h
    have hdef : ∃ sprite', forLoopO (fun i (sprite : List Nat) =>
        (e.readMem (u32 (e.IRegister.value + i))).bind (fun b => .next (sprite.set i b)))
        N (List.replicate N 0) = .next sprite' := by
      rcases h with h0 | hr
      · subst h0
        exact ⟨_, rfl⟩
      · exact spriteCopy_defined e N _ hr
    obtain ⟨sprite', hs'⟩ := hdef
    rw [← d4] at hs'
    rw [execOpcode_draw host e _ d1, execDraw_of_sprite e _ sprite' hs']
    exact ⟨_, rfl⟩
  · intro hpos h
    have hu := spriteCopy_undefined e N (List.replicate N 0) (by omega) hpos hI32 h
    rw [← d4] at hu
    rw [execOpcode_draw host e _ d1]
    unfold execDraw
    simp only []
    rw [hu]
    rfl

/-- C16, witness: `F165` with `I = 0xFFF`. -/
theorem index_not_wrapped_witness :
    (1 : Nat) < 16 ∧ (0 : Nat) < 16 ∧ (5 : Nat) < 16 ∧
    (Emulator.init.setI 0xFFF).IRegister.value < 4294967296 ∧
    4095 < (Emulator.init.setI 0xFFF).IRegister.value + 1 ∧
    execOpcode ⟨0, []⟩ (Emulator.init.setI 0xFFF) (0xF065 + 1 * 0x100) = .undefined :=
  ⟨by decide, by decide, by decide, by decide, by decide,
    (index_not_wrapped ⟨0, []⟩ (Emulator.init.setI 0xFFF) 1 0 5 (by decide) (by decide)
      (by decide) (by decide)).2.2.1.2 (by decide)⟩

/-! ## Loading a ROM -/

/-- The copy loop of `readProg` after `n` passes, while the addresses stay
inside the memory vector. -/
theorem romCopy_loop (e : Emulator) (rom : List Nat) (n : Nat) (hn : 0x200 + n ≤ 4096) :
    forLoopO (fun i (e1 : Emulator) => e1.writeMem (0x200 + i) (rom.getD i 0)) n e
      = .next { e with Memory := (fun a =>
          if 0x200 ≤ a ∧ a < 0x200 + n then rom.getD (a - 0x200) 0 else e.Memory a) } := by
  induction n with
  | zero =>
    simp only [forLoopO, Nat.add_zero]
    congr 1
    have h : e.Memory = fun a =>
        if 0x200 ≤ a ∧ a < 0x200 then rom.getD (a - 0x200) 0 else e.Memory a := by
      funext a
      rw [if_neg (by omega)]
    rw [← h]
  | succ n ih =>
    rw [forLoopO_succ, ih (by omega)]
    simp only [Outcome.bind]
    rw [writeMem_of_lt _ _ _ (by omega)]
    congr 2
    funext a
    by_cases h1 : a = 0x200 + n
    · subst h1
      rw [if_pos rfl, if_pos (by omega)]
      simp
    · rw [if_neg h1]
      dsimp only
      by_cases h2 : 0x200 ≤ a ∧ a < 0x200 + n
      · rw [if_pos h2, if_pos (by omega)]
      · rw [if_neg h2, if_neg (by omega)]

/-- The method `readProg` on a file that could be opened. -/
theorem readProg_some (e : Emulator) (rom : List Nat) :
    readProg e (some rom)
      = forLoopO (fun i (e1 : Emulator) => e1.writeMem (0x200 + i) (rom.getD i 0))
          rom.length e := rfl

/-- The copy loop of `readProg` has no defined result for more than 3584
passes: pass 3584 indexes `Memory[4096]`. -/
theorem romCopy_loop_undefined (e : Emulator) (rom : List Nat) (n : Nat) (hn : 3584 < n) :
    forLoopO (fun i (e1 : Emulator) => e1.writeMem (0x200 + i) (rom.getD i 0)) n e
      = .undefined := by
  apply forLoopO_undefined (fun _ => True) _ n 3584 e hn
  · intro i t hi _
    exact Or.inl ⟨_, writeMem_of_lt t _ _ (by omega), trivial⟩
  · intro t _
    exact writeMem_of_ge t _ _ (by omega)
  · trivial

/-- C18, counterexample: a ROM of 3585 bytes `AB` is not rejected.  The copy
loop has no size check: its first 3584 passes write the bytes (so `M[0x200]`
changes from 0 to `0xAB`), and pass 3584 indexes `Memory[4096]`, which has no
defined result; the process is not ended with an error. -/
theorem oversized_rom_not_rejected :
    (List.replicate 3585 0xAB).length = 3585 ∧
    readProg Emulator.init (some (List.replicate 3585 0xAB)) = .undefined ∧
    (∀ code, readProg Emulator.init (some (List.replicate 3585 0xAB)) ≠ .exit code) ∧
    (∃ e1, forLoopO (fun i (e1 : Emulator) =>
          e1.writeMem (0x200 + i) ((List.replicate 3585 0xAB).getD i 0)) 3584 Emulator.init
        = .next e1 ∧ e1.Memory 0x200 = 0xAB ∧ Emulator.init.Memory 0x200 = 0) := by
  have hu : readProg Emulator.init (some (List.replicate 3585 0xAB)) = .undefined := by
    rw [readProg_some]
    exact romCopy_loop_undefined _ _ _ (by rw [List.length_replicate]; decide)
  refine ⟨List.length_replicate _ _, hu, ?_, ?_⟩
  · intro code h
    rw [hu] at h
    cases h
  · refine ⟨_, romCopy_loop Emulator.init _ 3584 (by decide), ?_, rfl⟩
    show (if 0x200 ≤ 0x200 ∧ 0x200 < 0x200 + 3584 then
      (List.replicate 3585 0xAB).getD (0x200 - 0x200) 0 else Emulator.init.Memory 0x200) = 0xAB
    rw [if_pos (by decide)]
    rfl

/-- C18, as amended: loading an image of at most 3584 bytes places byte `i` at
`M[0x200 + i]` and leaves every other memory byte, the font included,
unchanged; loading a longer image is not rejected: the copy runs unchecked
past the end of memory, which has no defined result and reports no error. -/
theorem rom_load_unchecked (e : Emulator) (rom : List Nat) :
    (rom.length ≤ 3584 →
      ∃ e', readProg e (some rom) = .next e' ∧
        (∀ i, i < rom.length → e'.Memory (0x200 + i) = rom.getD i 0) ∧
        (∀ a, a < 0x200 ∨ 0x200 + rom.length ≤ a → e'.Memory a = e.Memory a)) ∧
    (3584 < rom.length →
      readProg e (some rom) = .undefined ∧
      (∀ code, readProg e (some rom) ≠ .exit code)) := by
  constructor
  · intro h
    rw [readProg_some]
    refine ⟨_, romCopy_loop e rom rom.length (by omega), ?_, ?_⟩
    · intro i hi
      dsimp only
      rw [if_pos (by omega), Nat.add_sub_cancel_left]
    · intro a ha
      dsimp only
      rw [if_neg (by omega)]
  · intro h
    have hu : readProg e (some rom) = .undefined := by
      rw [readProg_some]
      exact romCopy_loop_undefined e rom rom.length h
    refine ⟨hu, ?_⟩
    intro code hc
    rw [hu] at hc
    cases hc

/-- C18, witness: the four-byte ROM `6007 F029`. -/
theorem rom_load_unchecked_witness :
    [0x60, 0x07, 0xF0, 0x29].length ≤ 3584 ∧
    ∃ e', readProg Emulator.init (some [0x60, 0x07, 0xF0, 0x29]) = .next e' ∧
      (∀ i, i < [0x60, 0x07, 0xF0, 0x29].length →
        e'.Memory (0x200 + i) = [0x60, 0x07, 0xF0, 0x29].getD i 0) ∧
      (∀ a, a < 0x200 ∨ 0x200 + [0x60, 0x07, 0xF0, 0x29].length ≤ a →
        e'.Memory a = Emulator.init.Memory a) :=
  ⟨by decide, (rom_load_unchecked Emulator.init [0x60, 0x07, 0xF0, 0x29]).1 (by decide)⟩

/-- C12: the range predicate is not kept.  From reset the ROM `6101 8015 F01E`
leaves `V0 = 0xFFFFFFFF` after two cycles and `I = 0xFFFFFFFF` after three;
the ROM `6001 8017` leaves `V0 = 0xFFFFFFFF` and the ROM `6080 800E` leaves
`V0 = 256`, each after two cycles: the 32-bit field of `Register` is never
reduced to its declared 8 or 16 bits by 8XY5, 8XY7, 8XYE and FX1E. -/
theorem register_ranges_broken (host1 host2 host3 : Host) :
    (∃ e0 e2 e3, readProg Emulator.init (some [0x61, 0x01, 0x80, 0x15, 0xF0, 0x1E]) = .next e0 ∧
      cycles e0 [host1, host2] = .next e2 ∧ e2.V 0 = 4294967295 ∧ ¬ e2.V 0 ≤ 255 ∧
      cycles e0 [host1, host2, host3] = .next e3 ∧
      e3.IRegister.value = 4294967295 ∧ ¬ e3.IRegister.value ≤ 65535) ∧
    (∃ e0 e2, readProg Emulator.init (some [0x60, 0x01, 0x80, 0x17]) = .next e0 ∧
      cycles e0 [host1, host2] = .next e2 ∧ e2.V 0 = 4294967295 ∧ ¬ e2.V 0 ≤ 255) ∧
    (∃ e0 e2, readProg Emulator.init (some [0x60, 0x80, 0x80, 0x0E]) = .next e0 ∧
      cycles e0 [host1, host2] = .next e2 ∧ e2.V 0 = 256 ∧ ¬ e2.V 0 ≤ 255) := by
  refine ⟨⟨_, _, _, rfl, rfl, ?_, ?_, rfl, ?_, ?_⟩, ⟨_, _, rfl, rfl, ?_, ?_⟩,
    ⟨_, _, rfl, rfl, ?_, ?_⟩⟩ <;> decide

/-! ## Jumps and the index register -/

/-- The effect of an opcode with first nibble B. -/
theorem execOpcode_jumpV0 (host : Host) (e : Emulator) (opcode : Nat)
    (h : firstNibble opcode = 0xB) :
    execOpcode host e opcode
      = .next { e with
          ProgramCounter := u16 (u16 (u32 (e.V 0 + lowNNN opcode + 4294967296 - 2)) + 2) } := by
  simp only [execOpcode, h, Outcome.bind, Emulator.skip]

/-- C14, counterexample: the ROM `60FF BFFF` leaves the program counter at
`0x10FE`, not at `(0xFF + 0xFFF) mod 4096 = 0x0FE`. -/
theorem jump_v0_exceeds_4095 :
    ∃ e0 e2, readProg Emulator.init (some [0x60, 0xFF, 0xBF, 0xFF]) = .next e0 ∧
      cycles e0 [⟨0, []⟩, ⟨0, []⟩] = .next e2 ∧ e2.V 0 = 0xFF ∧
      e2.ProgramCounter = 0x10FE ∧ e2.ProgramCounter ≠ (0xFF + 0xFFF) % 4096 := by
  refine ⟨_, _, rfl, rfl, ?_, ?_, ?_⟩ <;> decide

/-- C14, as amended: for every `NNN` in `0..0xFFF` and every 8-bit `V0`, BNNN
leaves the program counter at `V0 + NNN`, without reduction modulo 4096:
this is `(V0 + NNN) mod 4096` when `V0 + NNN` is at most 4095 and 4096 more
than that otherwise. -/
theorem jump_v0_no_wrap (host : Host) (e : Emulator) (NNN : Nat) (hN : NNN ≤ 0xFFF)
    (hV : e.V 0 < 256) :
    ∃ e', execOpcode host e (0xB000 + NNN) = .next e' ∧
      e'.ProgramCounter = e.V 0 + NNN ∧
      (e.V 0 + NNN ≤ 4095 → e'.ProgramCounter = (e.V 0 + NNN) % 4096) ∧
      (4095 < e.V 0 + NNN → e'.ProgramCounter = (e.V 0 + NNN) % 4096 + 4096) := by
  have h1 : firstNibble (0xB000 + NNN) = 0xB := by rw [firstNibble_eq]; omega
  have h2 : lowNNN (0xB000 + NNN) = NNN := by rw [lowNNN_eq]; omega
  have hpc : u16 (u16 (u32 (e.V 0 + NNN + 4294967296 - 2)) + 2) = e.V 0 + NNN := by
    unfold u16 u32; omega
  refine ⟨_, execOpcode_jumpV0 host e _ h1, ?_, ?_, ?_⟩
  · simp only [h2, hpc]
  · intro h
    simp only [h2, hpc]
    omega
  · intro h
    simp only [h2, hpc]
    omega

/-- C14, witness: `BFFF` with `V0 = 0xFF`. -/
theorem jump_v0_no_wrap_witness :
    (0xFFF : Nat) ≤ 0xFFF ∧ (Emulator.init.setV 0 0xFF).V 0 < 256 ∧
    ∃ e', execOpcode ⟨0, []⟩ (Emulator.init.setV 0 0xFF) (0xB000 + 0xFFF) = .next e' ∧
      e'.ProgramCounter = (Emulator.init.setV 0 0xFF).V 0 + 0xFFF ∧
      ((Emulator.init.setV 0 0xFF).V 0 + 0xFFF ≤ 4095 →
        e'.ProgramCounter = ((Emulator.init.setV 0 0xFF).V 0 + 0xFFF) % 4096) ∧
      (4095 < (Emulator.init.setV 0 0xFF).V 0 + 0xFFF →
        e'.ProgramCounter = ((Emulator.init.setV 0 0xFF).V 0 + 0xFFF) % 4096 + 4096) :=
  ⟨by decide, by decide,
    jump_v0_no_wrap ⟨0, []⟩ (Emulator.init.setV 0 0xFF) 0xFFF (by decide) (by decide)⟩

/-- C15, counterexample: the ROM `6010 F029` leaves `I = 80`, not
`5 * (0x10 & 0xF) = 0`. -/
theorem font_address_not_masked :
    ∃ e0 e2, readProg Emulator.init (some [0x60, 0x10, 0xF0, 0x29]) = .next e0 ∧
      cycles e0 [⟨0, []⟩, ⟨0, []⟩] = .next e2 ∧ e2.V 0 = 0x10 ∧
      e2.IRegister.value = 80 ∧ e2.IRegister.value ≠ 5 * (0x10 &&& 0xF) := by
  refine ⟨_, _, rfl, rfl, ?_, ?_, ?_⟩ <;> decide

/-- C15, as amended: for every X and every 8-bit `Vx`, FX29 sets `I` to
`5 * Vx`, without masking `Vx` to its low nibble.  For `Vx` in `0..15` this is
`5 * (Vx & 0xF)`, the start of a five-byte glyph inside `0x000..0x04F`; in
particular `Vx = 0xA` gives `I = 50`, and the ROM `6007 F029` gives `I = 35`
after two cycles. -/
theorem font_address (host : Host) (e : Emulator) (X : Nat) (hX : X < 16)
    (hV : e.V X < 256) :
    (∃ e', execOpcode host e (0xF029 + X * 0x100) = .next e' ∧
      e'.IRegister.value = 5 * e.V X ∧
      (e.V X < 16 → e'.IRegister.value = 5 * (e.V X &&& 0xF) ∧
        e'.IRegister.value + 5 ≤ 0x50) ∧
      (e.V X = 0xA → e'.IRegister.value = 50)) ∧
    (∀ host1 host2 : Host, ∃ e0 e2,
      readProg Emulator.init (some [0x60, 0x07, 0xF0, 0x29]) = .next e0 ∧
      cycles e0 [host1, host2] = .next e2 ∧ e2.IRegister.value = 35) := by
  have h1 : firstNibble (0xF029 + X * 0x100) = 0xF := by rw [firstNibble_eq]; omega
  have h2 : secondNibble (0xF029 + X * 0x100) = X := by rw [secondNibble_eq]; omega
  have h3 : lowNN (0xF029 + X * 0x100) = 0x29 := by rw [lowNN_eq]; omega
  have hex : execOpcode host e (0xF029 + X * 0x100) = .next (e.setI (u32 (e.V X * 5))).skip := by
    rw [execOpcode_misc host e _ h1]
    simp only [execMisc, h3, h2, Outcome.bind]
  have hval : u32 (e.V X * 5) = 5 * e.V X := by
    unfold u32; omega
  constructor
  · refine ⟨_, hex, ?_, ?_, ?_⟩
    · simp only [Emulator.skip, Emulator.setI, hval]
    · intro h16
      have hm : e.V X &&& 0xF = e.V X := by
        have := Nat.and_pow_two_sub_one_eq_mod (e.V X) 4
        simp only [Nat.reducePow, Nat.add_one_sub_one] at this
        rw [this]
        exact Nat.mod_eq_of_lt h16
      simp only [Emulator.skip, Emulator.setI, hval, hm]
      constructor
      · trivial
      · omega
    · intro hA
      simp only [Emulator.skip, Emulator.setI, hval]
      omega
  · intro host1 host2
    exact ⟨_, _, rfl, rfl, rfl⟩

/-- C15, witness: `F029` with `V0 = 0xA`. -/
theorem font_address_witness :
    (0 : Nat) < 16 ∧ (Emulator.init.setV 0 0xA).V 0 < 256 ∧
    ∃ e', execOpcode ⟨0, []⟩ (Emulator.init.setV 0 0xA) (0xF029 + 0 * 0x100) = .next e' ∧
      e'.IRegister.value = 5 * (Emulator.init.setV 0 0xA).V 0 ∧
      ((Emulator.init.setV 0 0xA).V 0 < 16 →
        e'.IRegister.value = 5 * ((Emulator.init.setV 0 0xA).V 0 &&& 0xF) ∧
        e'.IRegister.value + 5 ≤ 0x50) ∧
      ((Emulator.init.setV 0 0xA).V 0 = 0xA → e'.IRegister.value = 50) :=
  ⟨by decide, by decide,
    (font_address ⟨0, []⟩ (Emulator.init.setV 0 0xA) 0 (by decide) (by decide)).1⟩

/-! ## The call and return scenario -/

/-- A word `0NNN` other than `00E0` and `00EE` only advances the program
counter. -/
theorem execOpcode_sys (host : Host) (e : Emulator) (opcode : Nat)
    (h1 : firstNibble opcode = 0) (h2 : opcode ≠ 0x00E0) (h3 : opcode ≠ 0x00EE) :
    execOpcode host e opcode = .next e.skip := by
  simp only [execOpcode, h1, h2, h3, if_false, Outcome.bind]

/-- Beyond the font table the reset memory is zero. -/
theorem init_memory_zero (a : Nat) (h : 80 ≤ a) : Emulator.init.Memory a = 0 := by
  show fonts.getD a 0 = 0
  exact List.getD_eq_default _ _ (by simpa [fonts] using h)

/-- A fetch from two zero bytes executes the no-op word `0000`. -/
theorem execution_zero (host : Host) (e e1 : Emulator)
    (h0 : e.Memory e.ProgramCounter = 0) (h1 : e.Memory (e.ProgramCounter + 1) = 0)
    (h : execution host e = .next e1) :
    e1 = e.skip ∧ e.ProgramCounter + 1 < 4096 := by
  unfold execution at h
  by_cases hlt : e.ProgramCounter + 1 < 4096
  · rw [readMem_of_lt e _ (by omega), readMem_of_lt e _ hlt] at h
    simp only [Outcome.bind, h0, h1] at h
    have hop : u16 ((0 <<< 8) ||| 0) = 0 := by decide
    rw [hop, execOpcode_sys host e 0 (by decide) (by decide) (by decide)] at h
    exact ⟨(Outcome.next.inj h).symm, hlt⟩
  · exfalso
    by_cases hlt0 : e.ProgramCounter < 4096
    · rw [readMem_of_lt e _ hlt0, readMem_of_ge e _ (by omega)] at h
      simp only [Outcome.bind] at h
      cases h
    · rw [readMem_of_ge e _ (by omega)] at h
      simp only [Outcome.bind] at h
      cases h

/-- A run through zeroed memory leaves `V0` alone and only moves the program
counter forward. -/
theorem cycles_zero_memory (hosts : List Host) (e e' : Emulator) (v : Nat)
    (hv : e.V 0 = v) (hmem : ∀ a, e.ProgramCounter ≤ a → e.Memory a = 0)
    (h : cycles e hosts = .next e') :
    e'.V 0 = v ∧ e'.ProgramCounter = e.ProgramCounter + 2 * hosts.length := by
  induction hosts generalizing e with
  | nil =>
    simp only [cycles, Outcome.next.injEq] at h
    subst h
    exact ⟨hv, rfl⟩
  | cons host rest ih =>
    simp only [cycles] at h
    rw [bind_eq_next] at h
    obtain ⟨e1, he1, hrest⟩ := h
    obtain ⟨hskip, hlt⟩ := execution_zero host e e1 (hmem _ (Nat.le_refl _))
      (hmem _ (Nat.le_succ _)) he1
    subst hskip
    have hpc : e.skip.ProgramCounter = e.ProgramCounter + 2 := by
      show u16 (e.ProgramCounter + 2) = _
      unfold u16; omega
    obtain ⟨r1, r2⟩ := ih e.skip hv
      (fun a ha => hmem a (by rw [hpc] at ha; omega)) hrest
    refine ⟨r1, ?_⟩
    rw [r2, hpc, List.length_cons]
    omega

/-- A run splits into a first part and the run of the rest. -/
theorem cycles_append (e : Emulator) (l1 l2 : List Host) :
    cycles e (l1 ++ l2) = (cycles e l1).bind (fun e1 => cycles e1 l2) := by
  induction l1 generalizing e with
  | nil => rfl
  | cons host rest ih =>
    simp only [List.cons_append, cycles]
    cases execution host e with
    | next e1 => simp only [Outcome.bind]; exact ih e1
    | exit c => rfl
    | undefined => rfl
    | waiting => rfl

/-- C19, counterexample: the program reaches `PC = 0x208` after two cycles
with `V0 = 0x42`, and in every state of the run whose program counter is
`0x208` the register `V0` holds `0x42`, never 0. -/
theorem call_lands_on_load :
    (∃ e0 e2,
      readProg Emulator.init (some [0x22, 0x06, 0x12, 0x08, 0x00, 0xEE, 0x60, 0x42]) = .next e0 ∧
      cycles e0 [⟨0, []⟩, ⟨0, []⟩] = .next e2 ∧
      e2.ProgramCounter = 0x208 ∧ e2.V 0 = 0x42) ∧
    (∀ (hosts : List Host) (e0 e' : Emulator),
      readProg Emulator.init (some [0x22, 0x06, 0x12, 0x08, 0x00, 0xEE, 0x60, 0x42]) = .next e0 →
      cycles e0 hosts = .next e' → e'.ProgramCounter = 0x208 → e'.V 0 = 0x42 ∧ e'.V 0 ≠ 0) := by
  constructor
  · exact ⟨_, _, rfl, rfl, rfl, rfl⟩
  · intro hosts e0 e' hload hrun hpc
    rw [readProg_some, romCopy_loop _ _ _ (by decide)] at hload
    have he0 := (Outcome.next.inj hload).symm
    have key : e'.V 0 = 0x42 := by
      match hosts, hrun with
      | [], hrun =>
        have h := (Outcome.next.inj hrun).symm
        subst h
        subst he0
        exact absurd hpc (by decide)
      | [h1], hrun =>
        subst he0
        have hrun2 : Outcome.next _ = Outcome.next e' := hrun
        have h := (Outcome.next.inj hrun2).symm
        subst h
        exact absurd hpc (by decide)
      | h1 :: h2 :: rest, hrun =>
        obtain ⟨e2, he2, hv2, hpc2, hmem2⟩ : ∃ e2 : Emulator,
            cycles e0 [h1, h2] = .next e2 ∧
            e2.V 0 = 0x42 ∧ e2.ProgramCounter = 0x208 ∧
            ∀ a, 0x208 ≤ a → e2.Memory a = Emulator.init.Memory a := by
          subst he0
          refine ⟨_, rfl, rfl, rfl, fun a ha => if_neg ?_⟩
          have hlen : [0x22, 0x06, 0x12, 0x08, 0x00, 0xEE, 0x60, 0x42].length = 8 := rfl
          rw [hlen]
          omega
        have hsplit : h1 :: h2 :: rest = [h1, h2] ++ rest := rfl
        rw [hsplit, cycles_append, he2] at hrun
        refine (cycles_zero_memory rest e2 e' 0x42 hv2 ?_ hrun).1
        intro a ha
        rw [hpc2] at ha
        rw [hmem2 a ha]
        exact init_memory_zero a (by omega)
    exact ⟨key, by rw [key]; decide⟩

/-- C19, as amended: from reset with the ROM `2206 1208 00EE 6042`, the first
cycle executes the CALL at `0x200` and transfers control to `0x206` with the
return address `0x200` pushed and `V0 = 0`; the second cycle executes the
`6042` stored at `0x206` and reaches `PC = 0x208` with `V0 = 0x42`, the return
address still on the stack (the RET at `0x204` has not run). -/
theorem call_return_program (host1 host2 : Host) :
    ∃ e0 e1 e2,
      readProg Emulator.init (some [0x22, 0x06, 0x12, 0x08, 0x00, 0xEE, 0x60, 0x42]) = .next e0 ∧
      e0.ProgramCounter = 0x200 ∧ e0.V 0 = 0 ∧
      execution host1 e0 = .next e1 ∧
      e1.ProgramCounter = 0x206 ∧ e1.stack = [0x200] ∧ e1.V 0 = 0 ∧
      execution host2 e1 = .next e2 ∧
      e2.ProgramCounter = 0x208 ∧ e2.stack = [0x200] ∧ e2.V 0 = 0x42 :=
  ⟨_, _, _, rfl, rfl, rfl, rfl, rfl, rfl, rfl, rfl, rfl, rfl, rfl⟩

/-! ## The shape of one opcode step -/

/-- What the outer switch of `execOpcode` can do to the state when the call
returns: the state before the closing `ProgramCounter += 2`, by first nibble. -/
theorem execOpcode_cases (host : Host) (e e' : Emulator) (opcode : Nat)
    (h : execOpcode host e opcode = .next e') :
    ∃ e1, e' = e1.skip ∧
      ((firstNibble opcode = 0x0 ∧ (e1 = e.clear ∨ e1 = e ∨
          ∃ top rest, e.stack = top :: rest ∧
            e1 = { e with ProgramCounter := top, stack := rest })) ∨
       (firstNibble opcode = 0x1 ∧
          e1 = { e with ProgramCounter := u16 (lowNNN opcode + 65536 - 2) }) ∨
       (firstNibble opcode = 0x2 ∧
          e1 = { e with stack := e.ProgramCounter :: e.stack,
                        ProgramCounter := u16 (lowNNN opcode + 65536 - 2) }) ∨
       ((firstNibble opcode = 0x3 ∨ firstNibble opcode = 0x4 ∨ firstNibble opcode = 0x5 ∨
          firstNibble opcode = 0x9 ∨ firstNibble opcode = 0xE) ∧ (e1 = e.skip ∨ e1 = e)) ∨
       (firstNibble opcode = 0x6 ∧ e1 = e.setV (secondNibble opcode) (lowNN opcode)) ∨
       (firstNibble opcode = 0x7 ∧
          e1 = { e.setV (secondNibble opcode) (u32 (e.V (secondNibble opcode) + lowNN opcode)) with
            Registers := fun k =>
              if k = secondNibble opcode then
                ((e.setV (secondNibble opcode)
                  (u32 (e.V (secondNibble opcode) + lowNN opcode))).Registers k).checkCarry.1
              else (e.setV (secondNibble opcode)
                  (u32 (e.V (secondNibble opcode) + lowNN opcode))).Registers k }) ∨
       (firstNibble opcode = 0x8 ∧ e1 = execArith e opcode) ∨
       (firstNibble opcode = 0xA ∧ e1 = e.setI (lowNNN opcode)) ∨
       (firstNibble opcode = 0xB ∧
          e1 = { e with
            ProgramCounter := u16 (u32 (e.V 0 + lowNNN opcode + 4294967296 - 2)) }) ∨
       (firstNibble opcode = 0xC ∧
          e1 = e.setV (secondNibble opcode) ((host.rand % 256) &&& lowNN opcode)) ∨
       (firstNibble opcode = 0xD ∧ execDraw e opcode = .next e1) ∨
       (firstNibble opcode = 0xF ∧ execMisc host e opcode = .next e1)) := by
  unfold execOpcode at h
  simp only [] at h
  rw [bind_eq_next] at h
  obtain ⟨e1, hbody, hskip⟩ := h
  refine ⟨e1, (Outcome.next.inj hskip).symm, ?_⟩
  split at hbody
  · next heq =>
    refine Or.inl ⟨heq, ?_⟩
    split at hbody
    · exact Or.inl (Outcome.next.inj hbody).symm
    · split at hbody
      · split at hbody
        · cases hbody
        · next top rest hst =>
          exact Or.inr (Or.inr ⟨top, rest, hst, (Outcome.next.inj hbody).symm⟩)
      · exact Or.inr (Or.inl (Outcome.next.inj hbody).symm)
  · next heq =>
    exact Or.inr (Or.inl ⟨heq, (Outcome.next.inj hbody).symm⟩)
  · next heq =>
    exact Or.inr (Or.inr (Or.inl ⟨heq, (Outcome.next.inj hbody).symm⟩))
  · next heq =>
    refine Or.inr (Or.inr (Or.inr (Or.inl ⟨Or.inl heq, ?_⟩)))
    have h1 := (Outcome.next.inj hbody).symm
    split at h1
    · exact Or.inl h1
    · exact Or.inr h1
  · next heq =>
    refine Or.inr (Or.inr (Or.inr (Or.inl ⟨Or.inr (Or.inl heq), ?_⟩)))
    have h1 := (Outcome.next.inj hbody).symm
    split at h1
    · exact Or.inl h1
    · exact Or.inr h1
  · next heq =>
    refine Or.inr (Or.inr (Or.inr (Or.inl ⟨Or.inr (Or.inr (Or.inl heq)), ?_⟩)))
    have h1 := (Outcome.next.inj hbody).symm
    split at h1
    · exact Or.inl h1
    · exact Or.inr h1
  · next heq =>
    exact Or.inr (Or.inr (Or.inr (Or.inr (Or.inl ⟨heq, (Outcome.next.inj hbody).symm⟩))))
  · next heq =>
    exact Or.inr (Or.inr (Or.inr (Or.inr (Or.inr (Or.inl
      ⟨heq, (Outcome.next.inj hbody).symm⟩)))))
  · next heq =>
    exact Or.inr (Or.inr (Or.inr (Or.inr (Or.inr (Or.inr (Or.inl
      ⟨heq, (Outcome.next.inj hbody).symm⟩))))))
  · next heq =>
    refine Or.inr (Or.inr (Or.inr (Or.inl ⟨Or.inr (Or.inr (Or.inr (Or.inl heq))), ?_⟩)))
    have h1 := (Outcome.next.inj hbody).symm
    split at h1
    · exact Or.inl h1
    · exact Or.inr h1
  · next heq =>
    exact Or.inr (Or.inr (Or.inr (Or.inr (Or.inr (Or.inr (Or.inr (Or.inl
      ⟨heq, (Outcome.next.inj hbody).symm⟩)))))))
  · next heq =>
    exact Or.inr (Or.inr (Or.inr (Or.inr (Or.inr (Or.inr (Or.inr (Or.inr (Or.inl
      ⟨heq, (Outcome.next.inj hbody).symm⟩))))))))
  · next heq =>
    exact Or.inr (Or.inr (Or.inr (Or.inr (Or.inr (Or.inr (Or.inr (Or.inr (Or.inr (Or.inl
      ⟨heq, (Outcome.next.inj hbody).symm⟩)))))))))
  · next heq =>
    exact Or.inr (Or.inr (Or.inr (Or.inr (Or.inr (Or.inr (Or.inr (Or.inr (Or.inr (Or.inr
      (Or.inl ⟨heq, hbody⟩))))))))))
  · next heq =>
    refine Or.inr (Or.inr (Or.inr (Or.inl ⟨Or.inr (Or.inr (Or.inr (Or.inr heq))), ?_⟩)))
    split at hbody
    · rw [bind_eq_next] at hbody
      obtain ⟨pressed, _, hp⟩ := hbody
      have h1 := (Outcome.next.inj hp).symm
      split at h1
      · exact Or.inl h1
      · exact Or.inr h1
    · split at hbody
      · rw [bind_eq_next] at hbody
        obtain ⟨pressed, _, hp⟩ := hbody
        have h1 := (Outcome.next.inj hp).symm
        split at h1
        · exact Or.inl h1
        · exact Or.inr h1
      · exact Or.inr (Outcome.next.inj hbody).symm
  · next heq =>
    exact Or.inr (Or.inr (Or.inr (Or.inr (Or.inr (Or.inr (Or.inr (Or.inr (Or.inr (Or.inr
      (Or.inr ⟨heq, hbody⟩))))))))))
  · next x h0 h1 h2 h3 h4 h5 h6 h7 h8 h9 h10 h11 h12 h13 h14 h15 =>
    exfalso
    have hlt : firstNibble opcode < 16 := by
      rw [firstNibble_eq]
      exact Nat.mod_lt _ (by decide)
    have n0 : firstNibble opcode ≠ 0 := h0
    have n1 : firstNibble opcode ≠ 1 := h1
    have n2 : firstNibble opcode ≠ 2 := h2
    have n3 : firstNibble opcode ≠ 3 := h3
    have n4 : firstNibble opcode ≠ 4 := h4
    have n5 : firstNibble opcode ≠ 5 := h5
    have n6 : firstNibble opcode ≠ 6 := h6
    have n7 : firstNibble opcode ≠ 7 := h7
    have n8 : firstNibble opcode ≠ 8 := h8
    have n9 : firstNibble opcode ≠ 9 := h9
    have n10 : firstNibble opcode ≠ 10 := h10
    have n11 : firstNibble opcode ≠ 11 := h11
    have n12 : firstNibble opcode ≠ 12 := h12
    have n13 : firstNibble opcode ≠ 13 := h13
    have n14 : firstNibble opcode ≠ 14 := h14
    have n15 : firstNibble opcode ≠ 15 := h15
    omega

/-- A write that returns changes the memory vector only. -/
theorem writeMem_next (e e' : Emulator) (idx v : Nat) (h : e.writeMem idx v = .next e') :
    e' = { e with Memory := fun k => if k = idx then v else e.Memory k } := by
  unfold Emulator.writeMem at h
  split at h
  · exact (Outcome.next.inj h).symm
  · cases h

/-- A read that returns was inside the memory vector. -/
theorem readMem_next (e : Emulator) (idx b : Nat) (h : e.readMem idx = .next b) :
    idx < 4096 ∧ b = e.Memory idx := by
  unfold Emulator.readMem at h
  split at h
  · next hlt => exact ⟨hlt, (Outcome.next.inj h).symm⟩
  · cases h

/-- The key found by the wait loop of `FX0A` is one of the 16 keys. -/
theorem waitKey_lt (keys : Nat → Bool) (polls : List (List Event)) (kp : (Nat → Bool) × Nat)
    (h : waitKey keys polls = .next kp) : kp.2 < 16 := by
  induction polls generalizing keys with
  | nil => cases h
  | cons events rest ih =>
    unfold waitKey at h
    split at h
    · next keys1 hk =>
      split at h
      · next i hi =>
        have hkp := (Outcome.next.inj h).symm
        subst hkp
        exact List.mem_range.mp (List.mem_of_find?_eq_some hi)
      · exact ih keys1 h
    · cases h
    · cases h
    · cases h

/-- The inner switch on `fourthNibble` writes general registers only. -/
theorem execArith_frame (e : Emulator) (opcode : Nat) :
    ∃ regs, execArith e opcode = { e with Registers := regs } := by
  unfold execArith
  simp only []
  split <;> exact ⟨_, rfl⟩

/-- The `case 0xD` changes the grid and stores 0 or 1 in `VF`. -/
theorem execDraw_cases (e e' : Emulator) (opcode : Nat) (h : execDraw e opcode = .next e') :
    ∃ g c, c ≤ 1 ∧ e' = ({ e with grid := g } : Emulator).setV 0xF c := by
  unfold execDraw at h
  simp only [] at h
  rw [bind_eq_next] at h
  obtain ⟨sprite, _, hs⟩ := h
  refine ⟨_, _, ?_, (Outcome.next.inj hs).symm⟩
  split <;> decide

/-- What the inner switch on `NN` can do to the state when it returns. -/
theorem execMisc_cases (host : Host) (e e' : Emulator) (opcode : Nat)
    (h : execMisc host e opcode = .next e') :
    (lowNN opcode = 0x07 ∧
      e' = e.setV (secondNibble opcode) (ofInt32 e.delayTimer.readTimer)) ∨
    (lowNN opcode = 0x0A ∧ ∃ keys1 i, i < 16 ∧
      e' = ({ e with keys := keys1 } : Emulator).setV (secondNibble opcode) i) ∨
    (lowNN opcode = 0x15 ∧
      e' = { e with delayTimer := e.delayTimer.setTimer (toInt32 (e.V (secondNibble opcode))) }) ∨
    (lowNN opcode = 0x18 ∧
      e' = { e with soundTimer := e.soundTimer.setTimer (toInt32 (e.V (secondNibble opcode))) }) ∨
    (∃ v, e' = e.setI v) ∨
    (∃ m, e' = { e with Memory := m }) ∨
    (∃ regs, e' = { e with Registers := regs } ∧
      ∀ k, (regs k).value = (e.Registers k).value ∨
        ∃ a, a < 4096 ∧ (regs k).value = e.Memory a) := by
  unfold execMisc at h
  simp only [] at h
  split at h
  · next heq => exact Or.inl ⟨heq, (Outcome.next.inj h).symm⟩
  · next heq =>
    rw [bind_eq_next] at h
    obtain ⟨kp, hkp, hs⟩ := h
    exact Or.inr (Or.inl ⟨heq, kp.1, kp.2, waitKey_lt _ _ kp hkp, (Outcome.next.inj hs).symm⟩)
  · next heq => exact Or.inr (Or.inr (Or.inl ⟨heq, (Outcome.next.inj h).symm⟩))
  · next heq => exact Or.inr (Or.inr (Or.inr (Or.inl ⟨heq, (Outcome.next.inj h).symm⟩)))
  · exact Or.inr (Or.inr (Or.inr (Or.inr (Or.inl ⟨_, (Outcome.next.inj h).symm⟩))))
  · exact Or.inr (Or.inr (Or.inr (Or.inr (Or.inl ⟨_, (Outcome.next.inj h).symm⟩))))
  · rw [bind_eq_next] at h
    obtain ⟨e1, h1, h⟩ := h
    rw [bind_eq_next] at h
    obtain ⟨e2, h2, h3⟩ := h
    have k1 := writeMem_next _ _ _ _ h1
    have k2 := writeMem_next _ _ _ _ h2
    have k3 := writeMem_next _ _ _ _ h3
    subst k1
    subst k2
    exact Or.inr (Or.inr (Or.inr (Or.inr (Or.inr (Or.inl ⟨_, k3⟩)))))
  · refine Or.inr (Or.inr (Or.inr (Or.inr (Or.inr (Or.inl ?_)))))
    refine forLoopO_invariant (fun t => ∃ m, t = { e with Memory := m }) _ _ e e' ?_
      ⟨e.Memory, rfl⟩ h
    rintro i t t' _ ⟨m, rfl⟩ ht
    exact ⟨_, writeMem_next { e with Memory := m } _ _ _ ht⟩
  · refine Or.inr (Or.inr (Or.inr (Or.inr (Or.inr (Or.inr ?_)))))
    refine forLoopO_invariant (fun t => ∃ regs, t = { e with Registers := regs } ∧
      ∀ k, (regs k).value = (e.Registers k).value ∨
        ∃ a, a < 4096 ∧ (regs k).value = e.Memory a) _ _ e e' ?_
      ⟨e.Registers, rfl, fun k => Or.inl rfl⟩ h
    rintro i t t' _ ⟨regs, rfl, hregs⟩ ht
    rw [bind_eq_next] at ht
    obtain ⟨b, hb, hs⟩ := ht
    obtain ⟨hlt, hbv⟩ := readMem_next _ _ _ hb
    refine ⟨_, (Outcome.next.inj hs).symm, ?_⟩
    intro k
    by_cases hk : k = i
    · right
      exact ⟨_, hlt, by simp only [hk, if_true]; exact hbv⟩
    · simp only [hk, if_false]
      exact hregs k
  · exact Or.inr (Or.inr (Or.inr (Or.inr (Or.inr (Or.inl ⟨e.Memory, (Outcome.next.inj h).symm⟩)))))

/-! ## The program counter -/

/-- What one opcode can do to the program counter and the stack, before the
closing `ProgramCounter += 2`. -/
theorem execOpcode_control (host : Host) (e e' : Emulator) (opcode : Nat)
    (h : execOpcode host e opcode = .next e') :
    ∃ e1 : Emulator, e' = e1.skip ∧
      ((e1.ProgramCounter = e.ProgramCounter ∧ e1.stack = e.stack) ∨
       (e1.ProgramCounter = u16 (e.ProgramCounter + 2) ∧ e1.stack = e.stack) ∨
       (firstNibble opcode = 0x0 ∧ ∃ top rest, e.stack = top :: rest ∧
          e1.ProgramCounter = top ∧ e1.stack = rest) ∨
       (firstNibble opcode = 0x1 ∧
          e1.ProgramCounter = u16 (lowNNN opcode + 65536 - 2) ∧ e1.stack = e.stack) ∨
       (firstNibble opcode = 0x2 ∧
          e1.ProgramCounter = u16 (lowNNN opcode + 65536 - 2) ∧
          e1.stack = e.ProgramCounter :: e.stack) ∨
       (firstNibble opcode = 0xB ∧ e1.stack = e.stack)) := by
  obtain ⟨e1, he', hc⟩ := execOpcode_cases host e e' opcode h
  refine ⟨e1, he', ?_⟩
  rcases hc with ⟨h0, hc | hc | ⟨top, rest, hst, hc⟩⟩ | ⟨h1, hc⟩ | ⟨h2, hc⟩ | ⟨_, hc | hc⟩ |
    ⟨_, hc⟩ | ⟨_, hc⟩ | ⟨_, hc⟩ | ⟨_, hc⟩ | ⟨hB, hc⟩ | ⟨_, hc⟩ | ⟨_, hc⟩ | ⟨_, hc⟩
  · subst hc; exact Or.inl ⟨rfl, rfl⟩
  · subst hc; exact Or.inl ⟨rfl, rfl⟩
  · subst hc; exact Or.inr (Or.inr (Or.inl ⟨h0, top, rest, hst, rfl, rfl⟩))
  · subst hc; exact Or.inr (Or.inr (Or.inr (Or.inl ⟨h1, rfl, rfl⟩)))
  · subst hc; exact Or.inr (Or.inr (Or.inr (Or.inr (Or.inl ⟨h2, rfl, rfl⟩))))
  · subst hc; exact Or.inr (Or.inl ⟨rfl, rfl⟩)
  · subst hc; exact Or.inl ⟨rfl, rfl⟩
  · subst hc; exact Or.inl ⟨rfl, rfl⟩
  · subst hc; exact Or.inl ⟨rfl, rfl⟩
  · obtain ⟨regs, hr⟩ := execArith_frame e opcode
    rw [hc, hr]
    exact Or.inl ⟨rfl, rfl⟩
  · subst hc; exact Or.inl ⟨rfl, rfl⟩
  · subst hc; exact Or.inr (Or.inr (Or.inr (Or.inr (Or.inr ⟨hB, rfl⟩))))
  · subst hc; exact Or.inl ⟨rfl, rfl⟩
  · obtain ⟨g, c, _, hd⟩ := execDraw_cases e e1 opcode hc
    subst hd; exact Or.inl ⟨rfl, rfl⟩
  · rcases execMisc_cases host e e1 opcode hc with ⟨_, hm⟩ | ⟨_, _, _, _, hm⟩ | ⟨_, hm⟩ |
      ⟨_, hm⟩ | ⟨_, hm⟩ | ⟨_, hm⟩ | ⟨_, hm, _⟩
    all_goals subst hm; exact Or.inl ⟨rfl, rfl⟩

/-- Every opcode that returns leaves a 16-bit program counter. -/
theorem execOpcode_pc_lt (host : Host) (e e' : Emulator) (opcode : Nat)
    (h : execOpcode host e opcode = .next e') : e'.ProgramCounter < 65536 := by
  obtain ⟨e1, he', _⟩ := execOpcode_cases host e e' opcode h
  subst he'
  exact Nat.mod_lt _ (by decide)

/-- One opcode keeps the program counter and the stacked return addresses
even, unless it is a jump or call to an odd address or a `BNNN`. -/
theorem execOpcode_even (host : Host) (e e' : Emulator) (opcode : Nat)
    (h : execOpcode host e opcode = .next e')
    (hpc : e.ProgramCounter % 2 = 0) (hst : ∀ a ∈ e.stack, a % 2 = 0)
    (hjump : firstNibble opcode = 1 ∨ firstNibble opcode = 2 → lowNNN opcode % 2 = 0)
    (hB : firstNibble opcode ≠ 0xB) :
    e'.ProgramCounter % 2 = 0 ∧ ∀ a ∈ e'.stack, a % 2 = 0 := by
  obtain ⟨e1, he', hc⟩ := execOpcode_control host e e' opcode h
  subst he'
  have hskip : ∀ p : Nat, p % 2 = 0 → u16 (p + 2) % 2 = 0 := by
    intro p hp
    unfold u16; omega
  show u16 (e1.ProgramCounter + 2) % 2 = 0 ∧ ∀ a ∈ e1.stack, a % 2 = 0
  rcases hc with ⟨h1, h2⟩ | ⟨h1, h2⟩ | ⟨_, top, rest, hs, h1, h2⟩ | ⟨hn, h1, h2⟩ |
    ⟨hn, h1, h2⟩ | ⟨hn, _⟩
  · rw [h1, h2]
    exact ⟨hskip _ hpc, hst⟩
  · rw [h1, h2]
    exact ⟨hskip _ (hskip _ hpc), hst⟩
  · rw [h1, h2]
    rw [hs] at hst
    exact ⟨hskip _ (hst top (List.mem_cons_self _ _)),
      fun a ha => hst a (List.mem_cons_of_mem _ ha)⟩
  · rw [h1, h2]
    have := hjump (Or.inl hn)
    refine ⟨?_, hst⟩
    unfold u16; omega
  · rw [h1, h2]
    have := hjump (Or.inr hn)
    refine ⟨?_, ?_⟩
    · unfold u16; omega
    · intro a ha
      rcases List.mem_cons.mp ha with rfl | ha
      · exact hpc
      · exact hst a ha
  · exact absurd hn hB

/-- A run of opcodes that returns leaves a 16-bit program counter. -/
theorem execOpcodes_pc_lt (ops : List (Host × Nat)) (e e' : Emulator)
    (hpc : e.ProgramCounter < 65536) (h : execOpcodes e ops = .next e') :
    e'.ProgramCounter < 65536 := by
  induction ops generalizing e with
  | nil =>
    have := Outcome.next.inj h
    subst this
    exact hpc
  | cons c rest ih =>
    obtain ⟨host, opcode⟩ := c
    simp only [execOpcodes] at h
    rw [bind_eq_next] at h
    obtain ⟨e1, h1, hr⟩ := h
    exact ih e1 (execOpcode_pc_lt host e e1 opcode h1) hr

/-- A run of opcodes keeps the program counter and the stack even when no
jump or call target is odd and no `BNNN` is executed. -/
theorem execOpcodes_even (ops : List (Host × Nat)) (e e' : Emulator)
    (hpc : e.ProgramCounter % 2 = 0) (hst : ∀ a ∈ e.stack, a % 2 = 0)
    (hops : ∀ c ∈ ops, (firstNibble c.2 = 1 ∨ firstNibble c.2 = 2 → lowNNN c.2 % 2 = 0) ∧
      firstNibble c.2 ≠ 0xB)
    (h : execOpcodes e ops = .next e') :
    e'.ProgramCounter % 2 = 0 ∧ ∀ a ∈ e'.stack, a % 2 = 0 := by
  induction ops generalizing e with
  | nil =>
    have := Outcome.next.inj h
    subst this
    exact ⟨hpc, hst⟩
  | cons c rest ih =>
    obtain ⟨host, opcode⟩ := c
    simp only [execOpcodes] at h
    rw [bind_eq_next] at h
    obtain ⟨e1, h1, hr⟩ := h
    have hc := hops (host, opcode) (List.mem_cons_self _ _)
    obtain ⟨k1, k2⟩ := execOpcode_even host e e1 opcode h1 hpc hst hc.1 hc.2
    exact ih e1 k1 k2 (fun c hcm => hops c (List.mem_cons_of_mem _ hcm)) hr

/-- C13, counterexample: the ROM `1201` leaves the odd program counter `0x201`
after one cycle, and the ROM `60FF BFFF` leaves the program counter `0x10FE`,
above 4095, after two cycles. -/
theorem pc_odd_or_beyond_memory :
    (∃ e0 e1, readProg Emulator.init (some [0x12, 0x01]) = .next e0 ∧
      cycles e0 [⟨0, []⟩] = .next e1 ∧ e1.ProgramCounter = 0x201 ∧
      e1.ProgramCounter % 2 = 1) ∧
    (∃ e0 e2, readProg Emulator.init (some [0x60, 0xFF, 0xBF, 0xFF]) = .next e0 ∧
      cycles e0 [⟨0, []⟩, ⟨0, []⟩] = .next e2 ∧ e2.ProgramCounter = 0x10FE ∧
      ¬ e2.ProgramCounter ≤ 4095) := by
  refine ⟨⟨_, _, rfl, rfl, ?_, ?_⟩, ⟨_, _, rfl, rfl, ?_, ?_⟩⟩ <;> decide

/-- C13, as amended: in every state reached from a reset state (any memory
contents, program counter `0x200`, empty stack) by executing opcodes, the
program counter lies in `0..65535`; and it is even when every executed
`1NNN` and `2NNN` has an even `NNN` and no `BNNN` is executed. -/
theorem pc_range_and_parity (e0 : Emulator) (ops : List (Host × Nat)) (e' : Emulator)
    (hpc : e0.ProgramCounter = 0x200) (hst : e0.stack = [])
    (h16 : ∀ c ∈ ops, c.2 < 65536)
    (hrun : execOpcodes e0 ops = .next e') :
    e'.ProgramCounter < 65536 ∧
    ((∀ c ∈ ops, (c.2 / 4096 = 1 ∨ c.2 / 4096 = 2 → c.2 % 2 = 0) ∧ c.2 / 4096 ≠ 0xB) →
      e'.ProgramCounter % 2 = 0) := by
  constructor
  · exact execOpcodes_pc_lt ops e0 e' (by rw [hpc]; decide) hrun
  · intro hops
    refine (execOpcodes_even ops e0 e' (by rw [hpc]) (by rw [hst]; intro a ha; cases ha)
      ?_ hrun).1
    intro c hc
    have hlt := h16 c hc
    obtain ⟨k1, k2⟩ := hops c hc
    have hf : firstNibble c.2 = c.2 / 4096 := by
      rw [firstNibble_eq]; omega
    rw [hf, lowNNN_eq]
    refine ⟨?_, k2⟩
    intro hj
    have := k1 hj
    omega

/-! ## The timers in the main loop -/

/-- Storing a byte keeps the general registers in byte range. -/
theorem regs_setV (e : Emulator) (X v : Nat) (hV : ∀ i, i < 16 → e.V i < 256) (hv : v < 256) :
    ∀ i, i < 16 → (e.setV X v).V i < 256 := by
  intro i hi
  by_cases h : i = X
  · subst h
    rw [V_setV_same]
    exact hv
  · rw [V_setV_ne e X v i h]
    exact hV i hi

/-- The nibble `X` is below 16. -/
theorem secondNibble_lt (op : Nat) : secondNibble op < 16 := by
  rw [secondNibble_eq]
  exact Nat.mod_lt _ (by decide)

/-- The nibble `Y` is below 16. -/
theorem thirdNibble_lt (op : Nat) : thirdNibble op < 16 := by
  rw [thirdNibble_eq]
  exact Nat.mod_lt _ (by decide)

/-- The byte `NN` is below 256. -/
theorem lowNN_lt (op : Nat) : lowNN op < 256 := by
  rw [lowNN_eq]
  exact Nat.mod_lt _ (by decide)

/-- The inner switch on `fourthNibble` keeps the general registers in byte
range, except in its cases 5, 7 and E. -/
theorem execArith_regs (e : Emulator) (opcode : Nat) (hV : ∀ i, i < 16 → e.V i < 256)
    (hop : fourthNibble opcode ≠ 5 ∧ fourthNibble opcode ≠ 7 ∧ fourthNibble opcode ≠ 0xE) :
    ∀ i, i < 16 → (execArith e opcode).V i < 256 := by
  have hx := hV _ (secondNibble_lt opcode)
  have hy := hV _ (thirdNibble_lt opcode)
  have p8 : (256 : Nat) = 2 ^ 8 := by decide
  unfold execArith
  simp only []
  split
  · exact regs_setV e _ _ hV hy
  · refine regs_setV e _ _ hV ?_
    rw [p8] at hx hy ⊢
    exact Nat.or_lt_two_pow hx hy
  · refine regs_setV e _ _ hV ?_
    rw [p8] at hy ⊢
    exact Nat.and_lt_two_pow _ hy
  · refine regs_setV e _ _ hV ?_
    rw [p8] at hx hy ⊢
    exact Nat.xor_lt_two_pow hx hy
  · refine regs_setV _ _ _ (regs_setV e _ _ hV ?_) ?_
    · split <;> decide
    · exact Nat.lt_of_le_of_lt Nat.and_le_right (by decide)
  · next h5 => exact absurd h5 hop.1
  · have h1 : ∀ i, i < 16 → (e.setV 0xF (e.V (secondNibble opcode) &&& 0x1)).V i < 256 :=
      regs_setV e _ _ hV (Nat.lt_of_le_of_lt Nat.and_le_right (by decide))
    refine regs_setV _ _ _ h1 ?_
    have h2 := h1 _ (secondNibble_lt opcode)
    rw [Nat.shiftRight_eq_div_pow]
    exact Nat.lt_of_le_of_lt (Nat.div_le_self _ _) h2
  · next h7 => exact absurd h7 hop.2.1
  · next hE => exact absurd hE hop.2.2
  · exact hV

/-- After `checkCarry` a register declared with 8 bits holds a byte. -/
theorem checkCarry_byte (r : Register) (hb : r.bits = 8) : r.checkCarry.1.value < 256 := by
  have h255 : (1 <<< 8) - 1 = 255 := by decide
  unfold Register.checkCarry
  simp only [hb, h255]
  split
  · exact Nat.lt_of_le_of_lt Nat.and_le_right (by decide)
  · next hle =>
    show r.value < 256
    omega

/-- Every byte of the reset memory is below 256. -/
theorem init_memory_byte (a : Nat) : Emulator.init.Memory a < 256 := by
  by_cases h : 80 ≤ a
  · rw [init_memory_zero a h]
    decide
  · have hlt : a < 80 := by omega
    show fonts.getD a 0 < 256
    interval_cases a <;> decide

/-- C20: from any state whose general registers hold values in `0..255` and
whose delay timer holds a value in `0..255` (the registers being the 8-bit
`Register(8)` objects of the constructor and the memory a vector of bytes),
every opcode other than 8XY5, 8XY7 and 8XYE that returns leaves every general
register in `0..255`; and each of the three excluded opcodes can store a
value above 255: `8015` with `V0 = 0`, `V1 = 1`, `8017` with `V0 = 1`,
`V1 = 0`, and `800E` with `V0 = 0x80`. -/
theorem only_sub_and_shl_exceed_byte (host : Host) (e e' : Emulator) (opcode : Nat)
    (h16 : opcode < 65536)
    (hV : ∀ i, i < 16 → e.V i < 256)
    (hbits : ∀ i, i < 16 → (e.Registers i).bits = 8)
    (hDT : 0 ≤ e.delayTimer.timer ∧ e.delayTimer.timer ≤ 255)
    (hmem : ∀ a, a < 4096 → e.Memory a < 256)
    (hop : ¬ (opcode / 4096 = 8 ∧ (opcode % 16 = 5 ∨ opcode % 16 = 7 ∨ opcode % 16 = 0xE)))
    (h : execOpcode host e opcode = .next e') :
    (∀ i, i < 16 → e'.V i < 256) ∧
    (∃ e2, execOpcode ⟨0, []⟩ (Emulator.init.setV 1 1) 0x8015 = .next e2 ∧ ¬ e2.V 0 ≤ 255) ∧
    (∃ e2, execOpcode ⟨0, []⟩ (Emulator.init.setV 0 1) 0x8017 = .next e2 ∧ ¬ e2.V 0 ≤ 255) ∧
    (∃ e2, execOpcode ⟨0, []⟩ (Emulator.init.setV 0 0x80) 0x800E = .next e2 ∧
      ¬ e2.V 0 ≤ 255) := by
  refine ⟨?_, ⟨_, rfl, by decide⟩, ⟨_, rfl, by decide⟩, ⟨_, rfl, by decide⟩⟩
  obtain ⟨e1, he', hc⟩ := execOpcode_cases host e e' opcode h
  subst he'
  show ∀ i, i < 16 → e1.V i < 256
  rcases hc with ⟨h0, hc | hc | ⟨top, rest, hst, hc⟩⟩ | ⟨h1, hc⟩ | ⟨h2, hc⟩ | ⟨_, hc | hc⟩ |
    ⟨_, hc⟩ | ⟨_, hc⟩ | ⟨h8, hc⟩ | ⟨_, hc⟩ | ⟨hB, hc⟩ | ⟨_, hc⟩ | ⟨_, hc⟩ | ⟨hF, hc⟩
  · rw [hc]
    intro i hi
    show (e.Registers i).value < 256
    exact hV i hi
  · rw [hc]
    exact hV
  · rw [hc]
    intro i hi
    show (e.Registers i).value < 256
    exact hV i hi
  · rw [hc]
    intro i hi
    show (e.Registers i).value < 256
    exact hV i hi
  · rw [hc]
    intro i hi
    show (e.Registers i).value < 256
    exact hV i hi
  · rw [hc]
    intro i hi
    show (e.Registers i).value < 256
    exact hV i hi
  · rw [hc]
    exact hV
  · subst hc; exact regs_setV e _ _ hV (lowNN_lt opcode)
  · subst hc
    intro i hi
    by_cases hi2 : i = secondNibble opcode
    · have hb := hbits _ (secondNibble_lt opcode)
      simp only [Emulator.V, Emulator.setV, hi2, if_true]
      exact checkCarry_byte _ hb
    · simp only [Emulator.V, Emulator.setV, hi2, if_false]
      exact hV i hi
  · subst hc
    refine execArith_regs e opcode hV ?_
    have hf : opcode / 4096 = 8 := by
      rw [firstNibble_eq] at h8; omega
    rw [fourthNibble_eq]
    refine ⟨fun h5 => hop ⟨hf, Or.inl h5⟩, fun h7 => hop ⟨hf, Or.inr (Or.inl h7)⟩,
      fun hE => hop ⟨hf, Or.inr (Or.inr hE)⟩⟩
  · rw [hc]
    intro i hi
    show (e.Registers i).value < 256
    exact hV i hi
  · rw [hc]
    intro i hi
    show (e.Registers i).value < 256
    exact hV i hi
  · subst hc
    refine regs_setV e _ _ hV ?_
    exact Nat.lt_of_le_of_lt Nat.and_le_left (Nat.mod_lt _ (by decide))
  · obtain ⟨g, c, hc1, hd⟩ := execDraw_cases e e1 opcode hc
    subst hd
    exact regs_setV _ _ _ hV (by omega)
  · rcases execMisc_cases host e e1 opcode hc with ⟨_, hm⟩ | ⟨_, keys1, k, hk, hm⟩ |
      ⟨_, hm⟩ | ⟨_, hm⟩ | ⟨_, hm⟩ | ⟨_, hm⟩ | ⟨regs, hm, hregs⟩
    · subst hm
      refine regs_setV e _ _ hV ?_
      unfold ofInt32 DelayTimer.readTimer
      omega
    · subst hm
      exact regs_setV _ _ _ hV (by omega)
    · rw [hm]
      intro i hi
      show (e.Registers i).value < 256
      exact hV i hi
    · rw [hm]
      intro i hi
      show (e.Registers i).value < 256
      exact hV i hi
    · rw [hm]
      intro i hi
      show (e.Registers i).value < 256
      exact hV i hi
    · rw [hm]
      intro i hi
      show (e.Registers i).value < 256
      exact hV i hi
    · subst hm
      intro i hi
      rcases hregs i with hr | ⟨a, ha, hr⟩
      · show (regs i).value < 256
        rw [hr]
        exact hV i hi
      · show (regs i).value < 256
        rw [hr]
        exact hmem a ha

/-! ## Further instances at concrete inputs -/

/-- C11, witness: `F255` with `I = 0x300` and `V1 = 0xAB`. -/
theorem store_load_roundtrip_witness :
    (2 : Nat) < 16 ∧ ((Emulator.init.setV 1 0xAB).setI 0x300).IRegister.value + 2 ≤ 4095 ∧
    (∀ i, i < 16 → ((Emulator.init.setV 1 0xAB).setI 0x300).V i < 256) ∧
    ∃ e1, execOpcode ⟨0, []⟩ ((Emulator.init.setV 1 0xAB).setI 0x300) (0xF055 + 2 * 0x100)
        = .next e1 ∧
      e1.IRegister = ((Emulator.init.setV 1 0xAB).setI 0x300).IRegister ∧
      e1.Registers = ((Emulator.init.setV 1 0xAB).setI 0x300).Registers :=
  ⟨by decide, by decide, by decide,
    Exists.imp (fun _ h => ⟨h.1, h.2.1, h.2.2.1⟩)
      (store_load_roundtrip ⟨0, []⟩ ⟨0, []⟩ ((Emulator.init.setV 1 0xAB).setI 0x300) 2
        (by decide) (by decide) (by decide))⟩

/-- C13, witness: `6005`, CALL `0x300` and RET from the reset state. -/
theorem pc_range_and_parity_witness :
    Emulator.init.ProgramCounter = 0x200 ∧ Emulator.init.stack = [] ∧
    (∀ c ∈ [((⟨0, []⟩ : Host), 0x6005), (⟨0, []⟩, 0x2300), (⟨0, []⟩, 0x00EE)], c.2 < 65536) ∧
    ∃ e', execOpcodes Emulator.init
        [((⟨0, []⟩ : Host), 0x6005), (⟨0, []⟩, 0x2300), (⟨0, []⟩, 0x00EE)] = .next e' ∧
      e'.ProgramCounter < 65536 ∧ e'.ProgramCounter % 2 = 0 :=
  ⟨rfl, rfl, by decide, _, rfl,
    (pc_range_and_parity Emulator.init
      [((⟨0, []⟩ : Host), 0x6005), (⟨0, []⟩, 0x2300), (⟨0, []⟩, 0x00EE)] _ rfl rfl
      (by decide) rfl).1,
    (pc_range_and_parity Emulator.init
      [((⟨0, []⟩ : Host), 0x6005), (⟨0, []⟩, 0x2300), (⟨0, []⟩, 0x00EE)] _ rfl rfl
      (by decide) rfl).2 (by decide)⟩

/-- C20, witness: `7005` with `V0 = 0xFF` wraps to `V0 = 4`. -/
theorem only_sub_and_shl_exceed_byte_witness :
    (0x7005 : Nat) < 65536 ∧
    (∀ i, i < 16 → (Emulator.init.setV 0 0xFF).V i < 256) ∧
    (∀ i, i < 16 → ((Emulator.init.setV 0 0xFF).Registers i).bits = 8) ∧
    (0 ≤ (Emulator.init.setV 0 0xFF).delayTimer.timer ∧
      (Emulator.init.setV 0 0xFF).delayTimer.timer ≤ 255) ∧
    (∀ a, a < 4096 → (Emulator.init.setV 0 0xFF).Memory a < 256) ∧
    ¬ ((0x7005 : Nat) / 4096 = 8 ∧
      ((0x7005 : Nat) % 16 = 5 ∨ (0x7005 : Nat) % 16 = 7 ∨ (0x7005 : Nat) % 16 = 0xE)) ∧
    ∃ e', execOpcode ⟨0, []⟩ (Emulator.init.setV 0 0xFF) 0x7005 = .next e' ∧
      e'.V 0 = 4 ∧ ∀ i, i < 16 → e'.V i < 256 :=
  ⟨by decide, by decide, by decide, by decide, fun a _ => init_memory_byte a, by decide,
    _, rfl, by decide,
    (only_sub_and_shl_exceed_byte ⟨0, []⟩ (Emulator.init.setV 0 0xFF) _ 0x7005 (by decide)
      (by decide) (by decide) (by decide) (fun a _ => init_memory_byte a) (by decide) rfl).1⟩

end Chip8
